import Mathlib

/-!
Verification development for the audiobook-metadata aggregation service
(`proxy_service`).  The definitions below are a shallow embedding of the
Python source: pure helpers become Lean functions, MongoDB documents become
association lists of fields, the Redis cache becomes an association list of
keys, and the stateful search / unification / import pipelines become
explicit state-passing functions.  Timestamps are modelled as natural
numbers, Python floats (ratings) as rationals.
-/

namespace Proxy

/-! ## Language normalization (`app/utils.py`, `normalize_language`) -/

/-- The fixed name→code table `LANGUAGE_MAP` of `app/utils.py`. -/
def LANGUAGE_MAP : List (String × String) :=
  [("english", "en"), ("german", "de"), ("deutsch", "de"), ("french", "fr"),
   ("francais", "fr"), ("spanish", "es"), ("espanol", "es"), ("italian", "it"),
   ("italiano", "it"), ("japanese", "ja"), ("chinese", "zh"), ("mandarin", "zh"),
   ("russian", "ru"), ("portuguese", "pt"), ("polish", "pl"), ("dutch", "nl"),
   ("swedish", "sv"), ("danish", "da"), ("finnish", "fi"), ("norwegian", "no"),
   ("korean", "ko")]

/-- `str.lower()` (character-wise ASCII lowering). -/
def lowerStr (s : String) : String :=
  String.mk (s.data.map Char.toLower)

/-- `str.strip()`: drop whitespace from both ends. -/
def trimStr (s : String) : String :=
  String.mk (((s.data.dropWhile Char.isWhitespace).reverse.dropWhile Char.isWhitespace).reverse)

/-- `s.split(sep)[0]` for a single-character separator: the part before the
first occurrence. -/
def splitHead (s : String) (sep : Char) : String :=
  String.mk (s.data.takeWhile (fun c => c ≠ sep))

/-- The `cleaned` value computed by `normalize_language`: lower-case, strip,
then take the part before the first `-` and before the first `_`. -/
def cleanedLang (lang : String) : String :=
  let c := trimStr (lowerStr lang)
  let c := if c.data.contains '-' then splitHead c '-' else c
  if c.data.contains '_' then splitHead c '_' else c

/-- `normalize_language` from `app/utils.py`: empty input falls back to
`"en"`; a cleaned value of exactly 2 characters is returned as-is (assumed to
already be a code); otherwise the name→code table is consulted with fallback
`"en"`. -/
def normalize_language (lang : String) : String :=
  if lang = "" then "en"
  else
    let cleaned := cleanedLang lang
    if cleaned.length = 2 then cleaned
    else (LANGUAGE_MAP.lookup cleaned).getD "en"

/-! ## MongoDB document model and `upsert_book_to_db` (`app/database.py`) -/

/-- A BSON-ish field value: strings and naturals (timestamps and counters are
both modelled as `Nat`). -/
inductive Val where
  | s (x : String)
  | n (x : Nat)
  deriving DecidableEq, Repr

/-- A document is an association list of fields, as a Python `dict` with
insertion order. -/
abbrev Doc := List (String × Val)

/-- First binding of a key, as `dict` access / Mongo field read. -/
def getField : Doc → String → Option Val
  | [], _ => none
  | (k0, v0) :: rest, k => if k0 = k then some v0 else getField rest k

/-- `dict.pop(k, None)`: remove the binding of `k`. -/
def popField : Doc → String → Doc
  | [], _ => []
  | (k0, v0) :: rest, k => if k0 = k then popField rest k else (k0, v0) :: popField rest k

/-- Mongo `$set` of one field / `dict[k] = v`: replace the first binding,
else append. -/
def setField (d : Doc) (k : String) (v : Val) : Doc :=
  match d with
  | [] => [(k, v)]
  | kv :: rest => if kv.1 = k then (k, v) :: rest else kv :: setField rest k v

/-- Mongo `$set` with an update document: set each field in order. -/
def setFields (d : Doc) (u : Doc) : Doc :=
  u.foldl (fun acc kv => setField acc kv.1 kv.2) d

/-- `update_one(filter={"asin": a}, {"$set": uset, "$setOnInsert": onIns},
upsert=True)` over a list of documents: update the first document whose
`asin` field equals `a`; if none matches, insert a new document built from
the filter, `$set`, and `$setOnInsert` fields. -/
def update_one_upsert (uset onIns : Doc) (a : Val) : List Doc → List Doc
  | [] => [setFields (setFields [("asin", a)] uset) onIns]
  | d :: rest =>
    if getField d "asin" = some a then setFields d uset :: rest
    else d :: update_one_upsert uset onIns a rest

/-- `upsert_book_to_db` from `app/database.py`: no-op without an `asin`;
otherwise `$set` the incoming fields minus `added_at`/`access_count`, plus
`updated_at := now`, with `$setOnInsert {added_at: now, access_count: 1}`. -/
def upsert_book_to_db (now : Nat) (book_data : Doc) (store : List Doc) : List Doc :=
  match getField book_data "asin" with
  | none => store
  | some a =>
    let update_data := popField (popField book_data "added_at") "access_count"
    let update_data := setField update_data "updated_at" (.n now)
    update_one_upsert update_data [("added_at", .n now), ("access_count", .n 1)] a store

/-- Durable-store lookup by asin (`find_one({"asin": asin})`). -/
def findBook : List Doc → Val → Option Doc
  | [], _ => none
  | d :: rest, a => if getField d "asin" = some a then some d else findBook rest a

/-! ## Canonical Book record

The pipeline-level embedding uses a structured record rather than raw
documents; it carries the fields the search / unification paths read.
`cached_at`, `last_accessed` and `access_count` are optional because
`_init_stats` injects them only when missing. -/

structure Book where
  asin : String
  provider : String
  title : String
  authors : List String
  isbn : Option String := none
  rating : Option ℚ := none
  cached_at : Option Nat := none
  last_accessed : Option Nat := none
  access_count : Option Nat := none
  deriving DecidableEq, Repr

/-- The `{provider, provider_id}` pair of a candidate (`provider` plus the
provider-local `asin`). -/
def pairOf (b : Book) : String × String := (b.provider, b.asin)

/-- `_init_stats` from `app/routers/api.py`: fill `cached_at`,
`last_accessed` and `access_count` only when absent. -/
def init_stats (now : Nat) (b : Book) : Book :=
  { b with
    cached_at := some (b.cached_at.getD now)
    last_accessed := some (b.last_accessed.getD now)
    access_count := some (b.access_count.getD 1) }

/-! ## Unification engine (`app/services/unifier.py`) -/

/-- A persisted Unified Entity: generated id, representative title/authors,
and the append-only `relations` set of `{provider, provider_id}` pairs. -/
structure UnifiedEntity where
  uid : Nat
  title : String
  authors : List String
  relations : List (String × String)
  deriving DecidableEq, Repr

/-- The durable store of Unified Entities, with a counter supplying fresh
generated ids. -/
structure UStore where
  entities : List UnifiedEntity
  nextId : Nat
  deriving DecidableEq, Repr

/-- Modelled from the spec: `find_unified_by_relation` is imported by
`app/services/unifier.py` from `app.database` but its body is not among the
provided sources.  Per the spec (§3, §4.4) it is the durable-store lookup of
the Unified Entity recording a given `{provider, provider_id}` relation. -/
def find_unified_by_relation (st : UStore) (provider pid : String) : Option UnifiedEntity :=
  st.entities.find? (fun e => (provider, pid) ∈ e.relations)

/-- Modelled from the spec: `create_unified_book` is imported by
`app/services/unifier.py` from `app.database` but its body is not among the
provided sources.  Per the spec (§4.4, §6) a new entity is persisted with a
generated stable identifier, representative title/authors, and its
`relations` set. -/
def create_unified_book (st : UStore) (title : String) (authors : List String)
    (relations : List (String × String)) : UStore × UnifiedEntity :=
  let e : UnifiedEntity := { uid := st.nextId, title := title, authors := authors,
                             relations := relations }
  ({ entities := st.entities ++ [e], nextId := st.nextId + 1 }, e)

/-- `_make_slug` from `app/services/unifier.py`: lower-case and keep only
alphanumeric characters. -/
def make_slug (text : String) : String :=
  String.mk ((lowerStr text).data.filter Char.isAlphanum)

/-- The heuristic match key of an unresolved candidate (lines 48-59 of
`unifier.py`): normalized title + first-author slug, overridden by
`"isbn:" ++ isbn` when an isbn of length ≥ 10 is present (`len(str(isbn)) > 9`,
and a non-empty truthiness test subsumed by the length bound). -/
def match_key (b : Book) : String :=
  let title_slug := make_slug b.title
  let author_slug := match b.authors with
    | [] => "unknown"
    | a :: _ => make_slug a
  let base := title_slug ++ "|" ++ author_slug
  match b.isbn with
  | none => base
  | some i => if i.length > 9 then "isbn:" ++ i else base

/-- Append a book to the group of its match key, keeping insertion order of
keys (Python `dict` semantics of `potential_groups`). -/
def addToGroups (key : String) (b : Book) : List (String × List Book) → List (String × List Book)
  | [] => [(key, [b])]
  | (k, g) :: rest =>
    if k = key then (k, g ++ [b]) :: rest else (k, g) :: addToGroups key b rest

/-- The `potential_groups` dict: fold candidates into groups keyed by `f`. -/
def groupByKey (f : Book → String) (l : List Book) : List (String × List Book) :=
  l.foldl (fun acc b => addToGroups (f b) b acc) []

/-- Provider priority used by `_merge_sources` (default 1). -/
def providerPriority (p : String) : Nat :=
  if p = "Audible" then 10
  else if p = "Hardcover" then 8
  else if p = "Penguin Random House" then 6
  else if p = "iTunes" then 5
  else if p = "Google Books" then 4
  else if p = "Goodreads" then 2
  else 1

/-- Stable descending sort by provider priority (`sources.sort(key=...,
reverse=True)`; Python's sort is stable). -/
def insertByPriority (b : Book) : List Book → List Book
  | [] => [b]
  | x :: xs =>
    if providerPriority b.provider ≤ providerPriority x.provider then x :: insertByPriority b xs
    else b :: x :: xs

def sortByPriorityDesc (l : List Book) : List Book :=
  l.foldr insertByPriority []

/-- First-seen-order deduplicated provider tags (the `available_providers`
set; Python's `set` iteration order is unspecified, the claims below do not
depend on it). -/
def collectProviders (sources : List Book) : List String :=
  (sources.map Book.provider).dedup

/-- The merged presentation object built by `_merge_sources`: the
highest-priority source's record decorated with the unified id and the
member-provider set. -/
structure MergedBook where
  book : Book
  unified_id : Nat
  available_providers : List String
  deriving DecidableEq, Repr

/-- Fallback inhabitant; `_merge_sources` is only ever applied to non-empty
source lists (both call sites build groups with at least one member). -/
def defaultBook : Book :=
  { asin := "", provider := "", title := "", authors := [] }

/-- `_merge_sources` from `unifier.py`. -/
def merge_sources (sources : List Book) (master : UnifiedEntity) : MergedBook :=
  let sorted := sortByPriorityDesc sources
  let primary := sorted.headD defaultBook
  { book := primary, unified_id := master.uid,
    available_providers := collectProviders sources }

/-- The in-memory `unified_map` of step 2: entries keyed by the existing
entity's id, in first-encountered order, each accumulating its sources. -/
def addToUMap (e : UnifiedEntity) (b : Book) :
    List (UnifiedEntity × List Book) → List (UnifiedEntity × List Book)
  | [] => [(e, [b])]
  | (e', srcs) :: rest =>
    if e'.uid = e.uid then (e', srcs ++ [b]) :: rest
    else (e', srcs) :: addToUMap e b rest

def buildUMap (st : UStore) (books : List Book) : List (UnifiedEntity × List Book) :=
  books.foldl (fun acc b =>
    match find_unified_by_relation st b.provider b.asin with
    | some e => addToUMap e b acc
    | none => acc) []

/-- Step 4 of `unify_search_results`: walk the groups in order, create one
Unified Entity per non-empty group (first member as representative), and
emit the merged presentation record. -/
def createForGroups (st : UStore) : List (String × List Book) → UStore × List MergedBook
  | [] => (st, [])
  | (_, []) :: rest => createForGroups st rest
  | (_, primary :: tl) :: rest =>
    let g := primary :: tl
    let relations := g.map (fun b => (b.provider, b.asin))
    let (st2, master) := create_unified_book st primary.title primary.authors relations
    let (st3, outs) := createForGroups st2 rest
    (st3, merge_sources g master :: outs)

/-- The entities appended by `createForGroups`, with ids counted from `n`:
one per non-empty group, in group order (specification of the effect of
step 4 on the store). -/
def mkNew (n : Nat) : List (String × List Book) → List UnifiedEntity
  | [] => []
  | (_, []) :: rest => mkNew n rest
  | (_, primary :: tl) :: rest =>
    { uid := n, title := primary.title, authors := primary.authors,
      relations := (primary :: tl).map (fun b => (b.provider, b.asin)) } :: mkNew (n + 1) rest

/-- `unify_search_results` from `app/services/unifier.py`: flatten the
per-provider result lists, split candidates into DB-resolved ones (their
`{provider, asin}` pair is already a recorded relation) and unassigned ones,
group the unassigned by `match_key`, emit merged records for the resolved
groups first and then create one new entity per unassigned group.  The
per-book loop reads a store that it does not modify, so the resolved /
unassigned split is the corresponding filter. -/
def unify_search_results (st : UStore) (results_list : List (List Book)) :
    UStore × List MergedBook :=
  let all_books := results_list.foldl (fun acc l => acc ++ l) []
  if all_books.isEmpty then (st, [])
  else
    let unassigned := all_books.filter
      (fun b => (find_unified_by_relation st b.provider b.asin).isNone)
    let resolved := all_books.filter
      (fun b => (find_unified_by_relation st b.provider b.asin).isSome)
    let umap := buildUMap st resolved
    let dbOut := umap.map (fun pr => merge_sources pr.2 pr.1)
    let groups := groupByKey match_key unassigned
    let (st2, newOut) := createForGroups st groups
    (st2, dbOut ++ newOut)

/-! ## Search-cache fingerprint (`app/routers/api.py`, lines 234-236) -/

/-- Python f-string interpolation of an optional string: `None` renders as
`"None"`, a present value as itself. -/
def pyOpt : Option String → String
  | none => "None"
  | some s => s

/-- `cache_str`: the raw fingerprint string.  `q`, `author`, `isbn`,
`providers` are the request parameters; `rate` is the rendering of
`min_rating` and `lim` the rendering of the configured result limit. -/
def cacheStr (q author isbn prov rate : Option String) (lim : String) : String :=
  "q=" ++ pyOpt q ++ ":auth=" ++ pyOpt author ++ ":isbn=" ++ pyOpt isbn ++
  ":prov=" ++ pyOpt prov ++ ":rate=" ++ pyOpt rate ++ ":lim=" ++ lim

/-- `clean_key = cache_str.lower().replace(" ", "").replace(",", "_")`. -/
def cleanChars (l : List Char) : List Char :=
  ((l.map Char.toLower).filter (fun c => c ≠ ' ')).map (fun c => if c = ',' then '_' else c)

def cleanKey (s : String) : String :=
  String.mk (cleanChars s.data)

/-- The full Redis key (`cache_key = f"search_v14:{clean_key}"`). -/
def searchCacheKey (q author isbn prov rate : Option String) (lim : String) : String :=
  "search_v14:" ++ cleanKey (cacheStr q author isbn prov rate lim)

/-! ## The `/search` pipeline (`app/routers/api.py`, `search_audiobook`) -/

/-- The gathered outcome of one constructed provider task: either the
adapter's list of canonical records, or a raised error (which
`benchmark_call` swallows, contributing an empty list). -/
inductive ProviderOutcome where
  | ok (books : List Book)
  | err
  deriving DecidableEq, Repr

/-- What `benchmark_call` hands back to the gather: failures degrade to the
initial `results = []`. -/
def outcomeBooks : ProviderOutcome → List Book
  | .ok l => l
  | .err => []

/-- A Redis value: a single book entry (`book_v7:` keys) or a cached search
result set (`search_v14:` keys). -/
inductive CVal where
  | book (b : Book)
  | slist (l : List Book)
  deriving DecidableEq, Repr

/-- Redis `SET` (replace or insert). -/
def setCache (cache : List (String × CVal)) (k : String) (v : CVal) : List (String × CVal) :=
  match cache with
  | [] => [(k, v)]
  | kv :: rest => if kv.1 = k then (k, v) :: rest else kv :: setCache rest k v

/-- Redis `GET`. -/
def getCache : List (String × CVal) → String → Option CVal
  | [], _ => none
  | (k0, v) :: rest, k => if k0 = k then some v else getCache rest k

/-- The Audiobookshelf-format projection produced by
`transform_to_abs_format`, restricted to the fields the embedded `Book`
carries: `id`/`asin`/`isbn` all take the record's asin, authors are joined
into one string, and provider/rating pass through.  The unifier's
`unified_id` / `available_providers` decorations are not part of the
projection (the source function never reads them). -/
structure AbsBook where
  id : String
  asin : String
  isbn : String
  title : String
  author : String
  provider : String
  rating : Option ℚ
  deriving DecidableEq, Repr

def transform_to_abs_format (b : Book) : AbsBook :=
  { id := b.asin, asin := b.asin, isbn := b.asin, title := b.title,
    author := String.intercalate ", " b.authors, provider := b.provider,
    rating := b.rating }

/-- The request parameters of `/search` (after FastAPI decoding). -/
structure SearchReq where
  q : Option String := none
  author : Option String := none
  isbn : Option String := none
  providers : Option String := none
  min_rating : Option ℚ := none
  deriving DecidableEq, Repr

/-- The environment of one `/search` call: current time, configured result
limit, the gathered per-task provider outcomes (in task-construction order),
and whether the durable-store upsert raises. -/
structure Env where
  now : Nat
  search_limit : Nat := 5
  providerResults : List ProviderOutcome := []
  upsertFails : Bool := false
  deriving Repr

/-- Observable state threaded through `/search`: the Redis cache, the
Unified-Entity store, the sequence of durable-store upserts performed
(asins, in order; their document-level semantics is `upsert_book_to_db`
above), and the number of provider tasks executed. -/
structure SState where
  cache : List (String × CVal) := []
  ustore : UStore := { entities := [], nextId := 0 }
  upsertLog : List String := []
  providerCalls : Nat := 0
  deriving Repr

/-- Rendering of the optional rating floor into the fingerprint
(`f"rate={min_rating}"`).  Rationals render by `toString`, which differs
textually from Python float rendering but is likewise injective, which is
all the pipeline claims rely on. -/
def ratRender : Option ℚ → Option String
  | none => none
  | some r => some (toString r)

/-- The concrete cache key computed by a request under a configured limit. -/
def reqCacheKey (req : SearchReq) (lim : Nat) : String :=
  searchCacheKey req.q req.author req.isbn req.providers (ratRender req.min_rating)
    (Nat.repr lim)

/-- Python truthiness of `min_rating` (`None` and `0.0` are falsy). -/
def ratingTruthy : Option ℚ → Bool
  | none => false
  | some m => m ≠ 0

/-- The `continue` condition of the rating filter: a truthy floor with a
null or lower rating. -/
def ratingSkips (mr : Option ℚ) (b : Book) : Bool :=
  ratingTruthy mr &&
    (match b.rating with
     | none => true
     | some r => decide (r < mr.getD 0))

/-- The filter/dedup assembly loop (lines 318-327): drop records failing a
truthy rating floor (null ratings fail), dedup by asin first-seen-wins, and
inject default stats into kept records. -/
def filterDedupGo (now : Nat) (mr : Option ℚ) : List Book → List String → List Book
  | [], _ => []
  | b :: rest, seen =>
    if ratingSkips mr b then
      filterDedupGo now mr rest seen
    else if b.asin ∈ seen then
      filterDedupGo now mr rest seen
    else
      init_stats now b :: filterDedupGo now mr rest (b.asin :: seen)

def filterDedup (now : Nat) (mr : Option ℚ) (full : List Book) : List Book :=
  filterDedupGo now mr full []

/-- The persist loop (lines 330-333): upsert each assembled record into the
durable store and write-through its `book_v7:` cache entry.  A raising
upsert aborts the loop (the surrounding `try` turns it into HTTP 500);
`some 500` reports the abort together with the state reached. -/
def persistBooks (env : Env) : List Book → SState → Option Nat × SState
  | [], st => (none, st)
  | b :: rest, st =>
    if env.upsertFails then (some 500, st)
    else persistBooks env rest
      { st with
        upsertLog := st.upsertLog ++ [b.asin]
        cache := setCache st.cache ("book_v7:" ++ b.asin) (.book b) }

/-- `search_audiobook` (`app/routers/api.py`, lines 215-347), from the
criteria validation on: reject criteria-free requests with 400; compute the
fingerprint key; a cache hit (present and truthy, i.e. non-empty) returns
the cached list in presentation format without constructing provider tasks;
otherwise gather the provider outcomes, flatten, filter/dedup, persist each
record, cache the assembled (pre-unification) list under the fingerprint
key, unify, and return the unified records in presentation format. -/
def search_audiobook (env : Env) (req : SearchReq) (st : SState) :
    Except Nat (List AbsBook) × SState :=
  if req.q = none ∧ req.author = none ∧ req.isbn = none then (.error 400, st)
  else
    let ckey := reqCacheKey req env.search_limit
    let hit : Option (List Book) :=
      match getCache st.cache ckey with
      | some (.slist l) => if l.isEmpty then none else some l
      | _ => none
    match hit with
    | some cached => (.ok (cached.map transform_to_abs_format), st)
    | none =>
      let results_list := env.providerResults.map outcomeBooks
      let st1 := { st with providerCalls := st.providerCalls + env.providerResults.length }
      let full_results := results_list.foldl (fun acc l => acc ++ l) []
      let filtered := filterDedup env.now req.min_rating full_results
      match persistBooks env filtered st1 with
      | (some code, st2) => (.error code, st2)
      | (none, st2) =>
        let st3 := { st2 with cache := setCache st2.cache ckey (.slist filtered) }
        let (ust, unified) := unify_search_results st3.ustore [filtered]
        (.ok (unified.map (fun u => transform_to_abs_format u.book)),
         { st3 with ustore := ust })

/-! ## List import (`app/routers/api.py`, `execute_list_import`, Audible
branch: chunked resolution of harvested identifiers) -/

/-- One observable event of the resolution loop: a chunk of identifiers
resolved concurrently, or the `asyncio.sleep(0.2)` pause. -/
inductive ImpEvent where
  | chunk (c : List String)
  | pause
  deriving DecidableEq, Repr

/-- The chunked resolution loop (lines 478-485): slice the identifier list
into chunks of 10 (`range(0, len(asins), 10)`), resolve each chunk
concurrently (`resolves` says whether `fetch_and_persist_book` succeeds for
an identifier), count successes, and pause after every chunk. -/
def chunkLoop (resolves : String → Bool) : List String → List ImpEvent × Nat
  | [] => ([], 0)
  | a :: rest =>
    let c := (a :: rest).take 10
    let (evs, k) := chunkLoop resolves ((a :: rest).drop 10)
    (ImpEvent.chunk c :: ImpEvent.pause :: evs, (c.filter resolves).length + k)
  termination_by l => l.length
  decreasing_by simp [List.length_drop]; omega

/-- The import outcome returned by the Audible branch
(`{"status": "success", "title": ..., "count": len(asins),
"imported": len(successful_books)}`). -/
structure ImportResult where
  status : String
  title : String
  count : Nat
  imported : Nat
  deriving DecidableEq, Repr

/-- `execute_list_import` for the identifier-only (Audible) source: the
scraper yields a title and identifier list (`none` models a raised scrape
error); an empty identifier list raises `"No ASINs found."`; otherwise the
chunk loop runs and a success result carries the requested and achieved
counts. -/
def execute_list_import_audible (resolves : String → Bool)
    (scraped : Option (String × List String)) :
    Except String (ImportResult × List ImpEvent) :=
  match scraped with
  | none => .error "scrape failed"
  | some (list_title, asins) =>
    if asins.isEmpty then .error "No ASINs found."
    else
      let (evs, k) := chunkLoop resolves asins
      .ok ({ status := "success", title := list_title, count := asins.length,
             imported := k }, evs)

/-- Reference chunking: the successive `asins[i:i+10]` slices. -/
def chunksOf10 : List String → List (List String)
  | [] => []
  | a :: rest => (a :: rest).take 10 :: chunksOf10 ((a :: rest).drop 10)
  termination_by l => l.length
  decreasing_by simp [List.length_drop]; omega

/-! ## Auxiliary predicates and lookups used by the statements -/

/-- Well-formedness of a Python `dict` rendered as a `Doc`: keys are unique. -/
def NodupKeys : Doc → Prop
  | [] => True
  | (k0, _) :: rest => getField rest k0 = none ∧ NodupKeys rest

/-- Lookup of a group by key in the `potential_groups` association list. -/
def groupLookup (k : String) : List (String × List Book) → Option (List Book)
  | [] => none
  | (k0, g) :: rest => if k0 = k then some g else groupLookup k rest

/-- Each `{provider, provider_id}` pair is a relation of at most one stored
Unified Entity (spec §3 invariant). -/
def PairUnique (st : UStore) : Prop :=
  st.entities.Pairwise (fun e1 e2 => ∀ pr, pr ∈ e1.relations → pr ∉ e2.relations)

/-- The data-model invariant on a candidate list (spec §3: `provider_id` +
`provider` together uniquely identify a raw source record): two candidates
carrying the same pair are the same record. -/
def PairsIdentify (l : List Book) : Prop :=
  ∀ b1 ∈ l, ∀ b2 ∈ l, pairOf b1 = pairOf b2 → b1 = b2

/-- The characters that pass untouched through the fingerprint cleaning:
lower-case letters and digits. -/
def cleanAlphabet : List Char := "abcdefghijklmnopqrstuvwxyz0123456789".data

/-- A "clean" rendered parameter: lower-case alphanumeric and distinct from
the literal rendering of an absent parameter. -/
def CleanStr (s : String) : Prop := s ≠ "none" ∧ ∀ c ∈ s.data, c ∈ cleanAlphabet

def CleanOpt : Option String → Prop
  | none => True
  | some s => CleanStr s

/-- A decimal-digit string (the rendering of the result limit). -/
def DigitStr (s : String) : Prop := ∀ c ∈ s.data, c ∈ ("0123456789".data)

/-- The cleaned rendering of an optional fingerprint field: `None` renders
(after lower-casing) as `"none"`, a clean value as itself. -/
def pydc : Option String → List Char
  | none => "none".data
  | some s => s.data

/-! # Theorems

## Document-level lemmas for the upsert semantics -/

theorem getField_setField_self (d : Doc) (k : String) (v : Val) :
    getField (setField d k v) k = some v := by
  induction d with
  | nil => simp [setField, getField]
  | cons kv rest ih =>
    cases kv with
    | mk a b =>
      by_cases h : a = k
      · simp [setField, h, getField]
      · simp [setField, h, getField, ih]

theorem getField_setField_ne (d : Doc) {k k' : String} (v : Val) (h : k' ≠ k) :
    getField (setField d k v) k' = getField d k' := by
  induction d with
  | nil => simp [setField, getField, Ne.symm h]
  | cons kv rest ih =>
    cases kv with
    | mk a b =>
      by_cases ha : a = k
      · subst ha
        simp [setField, getField, Ne.symm h]
      · by_cases ha' : a = k' <;> simp [setField, getField, ha, ha', h, ih]

theorem getField_popField_self (d : Doc) (k : String) :
    getField (popField d k) k = none := by
  induction d with
  | nil => rfl
  | cons kv rest ih =>
    cases kv with
    | mk a b =>
      by_cases ha : a = k <;> simp [popField, getField, ha, ih]

theorem getField_popField_ne {d : Doc} {k k' : String} (h : k' ≠ k) :
    getField (popField d k) k' = getField d k' := by
  induction d with
  | nil => rfl
  | cons kv rest ih =>
    cases kv with
    | mk a b =>
      by_cases ha : a = k
      · subst ha
        simp [popField, getField, Ne.symm h, ih]
      · by_cases ha' : a = k' <;> simp [popField, getField, ha, ha', h, ih]

theorem nodupKeys_setField {d : Doc} {k : String} {v : Val} (h : NodupKeys d) :
    NodupKeys (setField d k v) := by
  induction d with
  | nil => simp [setField, NodupKeys, getField]
  | cons kv rest ih =>
    cases kv with
    | mk a b =>
      obtain ⟨h1, h2⟩ := h
      by_cases ha : a = k
      · subst ha
        simp only [setField, if_pos rfl]
        exact ⟨h1, h2⟩
      · simp only [setField, if_neg ha]
        exact ⟨by rw [getField_setField_ne rest v ha]; exact h1, ih h2⟩

theorem nodupKeys_popField {d : Doc} (h : NodupKeys d) (k : String) :
    NodupKeys (popField d k) := by
  induction d with
  | nil => trivial
  | cons kv rest ih =>
    cases kv with
    | mk a b =>
      obtain ⟨h1, h2⟩ := h
      by_cases ha : a = k
      · simp only [popField, if_pos ha]
        exact ih h2
      · simp only [popField, if_neg ha]
        exact ⟨by rw [getField_popField_ne ha]; exact h1, ih h2⟩

theorem getField_setFields {u : Doc} (hu : NodupKeys u) (d : Doc) (k : String) :
    getField (setFields d u) k =
      if (getField u k).isSome then getField u k else getField d k := by
  induction u generalizing d with
  | nil => simp [setFields, getField]
  | cons kv u' ih =>
    cases kv with
    | mk k0 v0 =>
      obtain ⟨hu1, hu2⟩ := hu
      have hstep : setFields d ((k0, v0) :: u') = setFields (setField d k0 v0) u' := rfl
      rw [hstep, ih hu2]
      by_cases hk : k0 = k
      · subst hk
        simp [getField, hu1, getField_setField_self]
      · simp only [getField, if_neg hk]
        by_cases hsome : (getField u' k).isSome
        · simp [hsome]
        · simp [hsome, getField_setField_ne d v0 (fun he => hk he.symm)]

theorem findBook_update_one_existing {uset onIns : Doc} {a : Val}
    (hnu : NodupKeys uset) (hasin : getField uset "asin" = some a) :
    ∀ store d, findBook store a = some d →
      findBook (update_one_upsert uset onIns a store) a = some (setFields d uset) := by
  intro store
  induction store with
  | nil => intro d h; cases h
  | cons d0 rest ih =>
    intro d h
    by_cases hd : getField d0 "asin" = some a
    · have hdd : d0 = d := by simpa [findBook, hd] using h
      subst hdd
      simp only [update_one_upsert, if_pos hd]
      have hnew : getField (setFields d0 uset) "asin" = some a := by
        rw [getField_setFields hnu]
        simp [hasin]
      simp [findBook, hnew]
    · have h' : findBook rest a = some d := by simpa [findBook, hd] using h
      simp only [update_one_upsert, if_neg hd]
      simp [findBook, hd, ih d h']

theorem update_one_insert {uset onIns : Doc} {a : Val} :
    ∀ store, findBook store a = none →
      update_one_upsert uset onIns a store =
        store ++ [setFields (setFields [("asin", a)] uset) onIns] := by
  intro store
  induction store with
  | nil => intro _; rfl
  | cons d0 rest ih =>
    intro h
    have hd : ¬(getField d0 "asin" = some a) := by
      intro hc
      simp [findBook, hc] at h
    have h' : findBook rest a = none := by simpa [findBook, hd] using h
    simp [update_one_upsert, hd, ih h']

theorem findBook_append_single {store : List Doc} {a : Val} {d' : Doc}
    (h : findBook store a = none) (hd : getField d' "asin" = some a) :
    findBook (store ++ [d']) a = some d' := by
  induction store with
  | nil => simp [findBook, hd]
  | cons d0 rest ih =>
    have hd0 : ¬(getField d0 "asin" = some a) := by
      intro hc
      simp [findBook, hc] at h
    have h' : findBook rest a = none := by simpa [findBook, hd0] using h
    simp [findBook, hd0, ih h']

/-- C1: upserting a book whose asin is already stored updates the incoming
content fields and `updated_at` but leaves the stored `added_at` and
`access_count` untouched (in particular, never lowered); only when the asin
is absent from the store does the inserted document receive
`added_at := now` and `access_count := 1`. -/
theorem upsert_book_to_db_lifecycle (now : Nat) (bd : Doc) (store : List Doc) (a : Val)
    (hnd : NodupKeys bd) (ha : getField bd "asin" = some a) :
    (∀ d, findBook store a = some d →
      ∃ d', findBook (upsert_book_to_db now bd store) a = some d' ∧
        getField d' "added_at" = getField d "added_at" ∧
        getField d' "access_count" = getField d "access_count" ∧
        getField d' "updated_at" = some (.n now) ∧
        ∀ k v, k ≠ "added_at" → k ≠ "access_count" → k ≠ "updated_at" →
          getField bd k = some v → getField d' k = some v) ∧
    (findBook store a = none →
      ∃ d', findBook (upsert_book_to_db now bd store) a = some d' ∧
        getField d' "added_at" = some (.n now) ∧
        getField d' "access_count" = some (.n 1) ∧
        getField d' "updated_at" = some (.n now)) := by
  have hupsert : upsert_book_to_db now bd store =
      update_one_upsert
        (setField (popField (popField bd "added_at") "access_count") "updated_at" (.n now))
        [("added_at", .n now), ("access_count", .n 1)] a store := by
    simp [upsert_book_to_db, ha]
  set uset :=
    setField (popField (popField bd "added_at") "access_count") "updated_at" (.n now) with huset
  have hnu : NodupKeys uset :=
    nodupKeys_setField (nodupKeys_popField (nodupKeys_popField hnd "added_at") "access_count")
  have husetAdded : getField uset "added_at" = none := by
    rw [huset, getField_setField_ne _ _ (by decide)]
    rw [getField_popField_ne (by decide), getField_popField_self]
  have husetAccess : getField uset "access_count" = none := by
    rw [huset, getField_setField_ne _ _ (by decide), getField_popField_self]
  have husetUpdated : getField uset "updated_at" = some (.n now) := by
    rw [huset, getField_setField_self]
  have husetAsin : getField uset "asin" = some a := by
    rw [huset, getField_setField_ne _ _ (by decide),
      getField_popField_ne (by decide), getField_popField_ne (by decide)]
    exact ha
  have husetOther : ∀ k, k ≠ "added_at" → k ≠ "access_count" → k ≠ "updated_at" →
      getField uset k = getField bd k := by
    intro k h1 h2 h3
    rw [huset, getField_setField_ne _ _ h3, getField_popField_ne h2, getField_popField_ne h1]
  constructor
  · intro d hd
    refine ⟨setFields d uset, ?_, ?_, ?_, ?_, ?_⟩
    · rw [hupsert]
      exact findBook_update_one_existing hnu husetAsin store d hd
    · rw [getField_setFields hnu, husetAdded]
      simp
    · rw [getField_setFields hnu, husetAccess]
      simp
    · rw [getField_setFields hnu, husetUpdated]
      simp
    · intro k v h1 h2 h3 hbd
      rw [getField_setFields hnu, husetOther k h1 h2 h3, hbd]
      simp
  · intro hnone
    have honins : NodupKeys ([("added_at", Val.n now), ("access_count", Val.n 1)]) := by
      simp [NodupKeys, getField]
    refine ⟨setFields (setFields [("asin", a)] uset)
      [("added_at", .n now), ("access_count", .n 1)], ?_, ?_, ?_, ?_⟩
    · rw [hupsert, update_one_insert store hnone]
      apply findBook_append_single hnone
      rw [getField_setFields honins]
      have : getField ([("added_at", Val.n now), ("access_count", Val.n 1)]) "asin" = none := by
        simp [getField]
      rw [this]
      simp only [Option.isSome_none, Bool.false_eq_true, if_false]
      rw [getField_setFields hnu, husetAsin]
      simp
    · rw [getField_setFields honins]
      simp [getField]
    · rw [getField_setFields honins]
      simp [getField]
    · rw [getField_setFields honins]
      have : getField ([("added_at", Val.n now), ("access_count", Val.n 1)]) "updated_at" = none := by
        simp [getField]
      rw [this]
      simp only [Option.isSome_none, Bool.false_eq_true, if_false]
      rw [getField_setFields hnu, husetUpdated]
      simp

theorem upsert_book_to_db_lifecycle_witness :
    ∃ d', findBook (upsert_book_to_db 5
        [("asin", Val.s "B1"), ("title", Val.s "T2"), ("access_count", Val.n 9)]
        [[("asin", Val.s "B1"), ("title", Val.s "T1"), ("added_at", Val.n 1),
          ("access_count", Val.n 3)]]) (Val.s "B1") = some d' ∧
      getField d' "added_at" =
        getField [("asin", Val.s "B1"), ("title", Val.s "T1"), ("added_at", Val.n 1),
          ("access_count", Val.n 3)] "added_at" ∧
      getField d' "access_count" =
        getField [("asin", Val.s "B1"), ("title", Val.s "T1"), ("added_at", Val.n 1),
          ("access_count", Val.n 3)] "access_count" ∧
      getField d' "updated_at" = some (.n 5) ∧
      ∀ k v, k ≠ "added_at" → k ≠ "access_count" → k ≠ "updated_at" →
        getField [("asin", Val.s "B1"), ("title", Val.s "T2"), ("access_count", Val.n 9)] k =
          some v → getField d' k = some v :=
  (upsert_book_to_db_lifecycle 5
    [("asin", Val.s "B1"), ("title", Val.s "T2"), ("access_count", Val.n 9)]
    [[("asin", Val.s "B1"), ("title", Val.s "T1"), ("added_at", Val.n 1),
      ("access_count", Val.n 3)]] (Val.s "B1")
    (by simp [NodupKeys, getField]) rfl).1
    [("asin", Val.s "B1"), ("title", Val.s "T1"), ("added_at", Val.n 1),
      ("access_count", Val.n 3)] rfl

/-! ## C7: language normalization -/

/-- C7 counterexample: the claim says `"xx"` normalizes to `"en"`, but the
code returns any 2-character cleaned input verbatim, so
`normalize_language "xx" = "xx"`. -/
theorem normalize_language_xx_counterexample :
    normalize_language "xx" = "xx" ∧ normalize_language "xx" ≠ "en" := by
  decide

/-- C7 (amended): `"English"`, `"EN-us"`, `"Deutsch"` normalize to `"en"`,
`"en"`, `"de"` through the fixed name→code table; an unrecognized input
whose cleaned form is not exactly 2 characters falls back to `"en"`, while a
2-character cleaned input (such as `"xx"`) is returned verbatim as a code. -/
theorem normalize_language_table_fallback :
    normalize_language "English" = "en" ∧ normalize_language "EN-us" = "en" ∧
    normalize_language "Deutsch" = "de" ∧ normalize_language "xx" = "xx" ∧
    ∀ s : String, s ≠ "" → (cleanedLang s).length ≠ 2 →
      (LANGUAGE_MAP.lookup (cleanedLang s)) = none → normalize_language s = "en" := by
  refine ⟨rfl, rfl, rfl, rfl, ?_⟩
  intro s hne hlen hlook
  simp [normalize_language, hne, hlen, hlook]

theorem normalize_language_table_fallback_witness :
    normalize_language "Klingon" = "en" :=
  normalize_language_table_fallback.2.2.2.2 "Klingon" (by decide) (by decide) (by decide)

/-! ## C9: chunked list-import resolution -/

theorem chunkLoop_events (r : String → Bool) (l : List String) :
    (chunkLoop r l).1 =
      ((chunksOf10 l).map (fun c => [ImpEvent.chunk c, ImpEvent.pause])).flatten := by
  induction l using chunksOf10.induct with
  | case1 => simp [chunkLoop, chunksOf10]
  | case2 a rest ih =>
    rw [chunkLoop, chunksOf10]
    simp only [List.drop_succ_cons] at ih
    simp [ih]

theorem chunkLoop_count (r : String → Bool) (l : List String) :
    (chunkLoop r l).2 = (l.filter r).length := by
  induction l using chunksOf10.induct with
  | case1 => simp [chunkLoop]
  | case2 a rest ih =>
    rw [chunkLoop]
    simp only [ih]
    conv_rhs => rw [← List.take_append_drop 10 (a :: rest)]
    rw [List.filter_append, List.length_append]

theorem chunksOf10_length (l : List String) : (chunksOf10 l).length = (l.length + 9) / 10 := by
  induction l using chunksOf10.induct with
  | case1 => simp [chunksOf10]
  | case2 a rest ih =>
    rw [chunksOf10]
    simp only [List.length_cons, List.length_drop] at ih ⊢
    rw [ih]
    omega

/-- C9: importing a non-empty identifier list from the identifier-only
source resolves it in exactly `⌈n/10⌉` chunks of at most 10 identifiers,
each chunk followed by a pause, and a partial outcome (k of n resolved) is
returned as a success carrying the requested count `n` and achieved count
`k`. -/
theorem execute_list_import_chunked (resolves : String → Bool) (title : String)
    (asins : List String) (h : asins ≠ []) :
    ∃ res evs,
      execute_list_import_audible resolves (some (title, asins)) = .ok (res, evs) ∧
      res.status = "success" ∧ res.title = title ∧
      res.count = asins.length ∧
      res.imported = (asins.filter resolves).length ∧
      evs = ((chunksOf10 asins).map (fun c => [ImpEvent.chunk c, ImpEvent.pause])).flatten ∧
      (chunksOf10 asins).length = (asins.length + 9) / 10 ∧
      ∀ c ∈ chunksOf10 asins, c.length ≤ 10 := by
  refine ⟨{ status := "success", title := title, count := asins.length,
            imported := (chunkLoop resolves asins).2 }, (chunkLoop resolves asins).1,
          ?_, rfl, rfl, rfl, chunkLoop_count resolves asins, chunkLoop_events resolves asins,
          chunksOf10_length asins, ?_⟩
  · simp [execute_list_import_audible, h]
  · intro c hc
    induction asins using chunksOf10.induct with
    | case1 => simp [chunksOf10] at hc
    | case2 a rest ih =>
      rw [chunksOf10] at hc
      rcases List.mem_cons.mp hc with hc | hc
      · subst hc
        exact List.length_take_le 10 (a :: rest)
      · exact ih (by
          intro he
          rw [he] at hc
          simp [chunksOf10] at hc) hc

theorem execute_list_import_chunked_witness :
    ∃ res evs,
      execute_list_import_audible (fun s => s != "a0" && s != "a1" && s != "a2")
        (some ("Best Of", (List.range 25).map (fun i => "a" ++ Nat.repr i))) =
          .ok (res, evs) ∧
      res.status = "success" ∧ res.count = 25 ∧ res.imported = 22 ∧
      (chunksOf10 ((List.range 25).map (fun i => "a" ++ Nat.repr i))).length = 3 ∧
      evs = ((chunksOf10 ((List.range 25).map (fun i => "a" ++ Nat.repr i))).map
        (fun c => [ImpEvent.chunk c, ImpEvent.pause])).flatten := by
  obtain ⟨res, evs, h1, h2, h3, h4, h5, h6, h7, h8⟩ :=
    execute_list_import_chunked (fun s => s != "a0" && s != "a1" && s != "a2") "Best Of"
      ((List.range 25).map (fun i => "a" ++ Nat.repr i)) (by decide)
  refine ⟨res, evs, h1, h2, ?_, ?_, ?_, h6⟩
  · rw [h4]; decide
  · rw [h5]; decide
  · rw [h7]; decide

/-! ## C5: strong-identifier grouping -/

theorem groupLookup_addToGroups_self (k : String) (b : Book)
    (acc : List (String × List Book)) :
    groupLookup k (addToGroups k b acc) = some ((groupLookup k acc).getD [] ++ [b]) := by
  induction acc with
  | nil => simp [addToGroups, groupLookup]
  | cons kg rest ih =>
    cases kg with
    | mk k0 g =>
      by_cases hk : k0 = k
      · subst hk
        simp [addToGroups, groupLookup]
      · simp [addToGroups, groupLookup, hk, ih]

theorem groupLookup_addToGroups_ne {k k' : String} (b : Book)
    (acc : List (String × List Book)) (h : k' ≠ k) :
    groupLookup k' (addToGroups k b acc) = groupLookup k' acc := by
  induction acc with
  | nil => simp [addToGroups, groupLookup, Ne.symm h]
  | cons kg rest ih =>
    cases kg with
    | mk k0 g =>
      by_cases hk : k0 = k
      · subst hk
        simp [addToGroups, groupLookup, Ne.symm h]
      · by_cases hk' : k0 = k' <;> simp [addToGroups, groupLookup, hk, hk', h, ih]

theorem mem_group_foldl (f : Book → String) (b : Book) :
    ∀ (l : List Book) (acc : List (String × List Book)),
      ((∃ g0, groupLookup (f b) acc = some g0 ∧ b ∈ g0) ∨ b ∈ l) →
      ∃ g, groupLookup (f b) (l.foldl (fun acc b => addToGroups (f b) b acc) acc) = some g ∧
        b ∈ g := by
  intro l
  induction l with
  | nil =>
    intro acc h
    rcases h with ⟨g0, hl, hm⟩ | h
    · exact ⟨g0, hl, hm⟩
    · cases h
  | cons x xs ih =>
    intro acc h
    simp only [List.foldl_cons]
    apply ih
    rcases h with ⟨g0, hl, hm⟩ | h
    · left
      by_cases hfb : f b = f x
      · rw [hfb, groupLookup_addToGroups_self]
        rw [← hfb, hl]
        exact ⟨_, rfl, by simp [hm]⟩
      · exact ⟨g0, by rw [groupLookup_addToGroups_ne x acc hfb]; exact hl, hm⟩
    · rcases List.mem_cons.mp h with h | h
      · subst h
        left
        rw [groupLookup_addToGroups_self]
        exact ⟨_, rfl, by simp⟩
      · right
        exact h

theorem mem_group_groupByKey (f : Book → String) {b : Book} {l : List Book} (h : b ∈ l) :
    ∃ g, groupLookup (f b) (groupByKey f l) = some g ∧ b ∈ g :=
  mem_group_foldl f b l [] (Or.inr h)

/-- C5: a candidate carrying an isbn of length ≥ 10 receives the match key
`"isbn:" ++ isbn` regardless of title and authors, so two candidates with
the same strong identifier but differently-cased titles get the same match
key and land in the same heuristic group. -/
theorem strong_identifier_overrides (b1 b2 : Book) (s : String)
    (h1 : b1.isbn = some s) (h2 : b2.isbn = some s) (hlen : s.length > 9) :
    match_key b1 = "isbn:" ++ s ∧ match_key b2 = "isbn:" ++ s ∧
    ∀ l, b1 ∈ l → b2 ∈ l →
      ∃ g, groupLookup ("isbn:" ++ s) (groupByKey match_key l) = some g ∧
        b1 ∈ g ∧ b2 ∈ g := by
  have hk1 : match_key b1 = "isbn:" ++ s := by simp [match_key, h1, hlen]
  have hk2 : match_key b2 = "isbn:" ++ s := by simp [match_key, h2, hlen]
  refine ⟨hk1, hk2, ?_⟩
  intro l hm1 hm2
  obtain ⟨g, hg, hbg⟩ := mem_group_groupByKey match_key hm1
  obtain ⟨g', hg', hbg'⟩ := mem_group_groupByKey match_key hm2
  rw [hk1] at hg
  rw [hk2] at hg'
  rw [hg] at hg'
  obtain rfl : g = g' := by injection hg'
  exact ⟨g, hg, hbg, hbg'⟩

theorem strong_identifier_overrides_witness :
    ∃ g, groupLookup ("isbn:" ++ "1234567890")
        (groupByKey match_key
          [{ asin := "A1", provider := "Audible", title := "DUNE",
             authors := ["Frank Herbert"], isbn := some "1234567890" },
           { asin := "hc:9", provider := "Hardcover", title := "dune",
             authors := ["frank herbert"], isbn := some "1234567890" }]) = some g ∧
      ({ asin := "A1", provider := "Audible", title := "DUNE",
         authors := ["Frank Herbert"], isbn := some "1234567890" } : Book) ∈ g ∧
      ({ asin := "hc:9", provider := "Hardcover", title := "dune",
         authors := ["frank herbert"], isbn := some "1234567890" } : Book) ∈ g :=
  (strong_identifier_overrides
    { asin := "A1", provider := "Audible", title := "DUNE",
      authors := ["Frank Herbert"], isbn := some "1234567890" }
    { asin := "hc:9", provider := "Hardcover", title := "dune",
      authors := ["frank herbert"], isbn := some "1234567890" }
    "1234567890" rfl rfl (by decide)).2.2
    [{ asin := "A1", provider := "Audible", title := "DUNE",
       authors := ["Frank Herbert"], isbn := some "1234567890" },
     { asin := "hc:9", provider := "Hardcover", title := "dune",
       authors := ["frank herbert"], isbn := some "1234567890" }]
    (by simp) (by simp)

/-! ## C10: the rating floor -/

/-- C10 counterexample: a search invoked with the explicit rating floor
`0.0` returns a record whose rating is null — `if min_rating:` treats a zero
floor as absent, so the filter (including the null-rating exclusion) is
skipped entirely. -/
theorem min_rating_zero_counterexample :
    (search_audiobook
      { now := 0,
        providerResults :=
          [.ok [{ asin := "N1", provider := "Audible", title := "NoRating",
                  authors := ["A"] }]] }
      { q := some "x", min_rating := some 0 } {}).1 =
    .ok [{ id := "N1", asin := "N1", isbn := "N1", title := "NoRating", author := "A",
           provider := "Audible", rating := none }] := rfl

/-- C10 (amended): for every search invoked with a NONZERO rating floor,
every record assembled by the filter/dedup loop has a non-null rating at
least the floor (null ratings are excluded); a floor of exactly `0.0` is
falsy in Python and disables the filter altogether. -/
theorem min_rating_nonzero_filters (now : Nat) (m : ℚ) (hm : m ≠ 0) (full : List Book) :
    ∀ b ∈ filterDedup now (some m) full, ∃ r, b.rating = some r ∧ m ≤ r := by
  suffices h : ∀ (l : List Book) (seen : List String),
      ∀ b ∈ filterDedupGo now (some m) l seen, ∃ r, b.rating = some r ∧ m ≤ r by
    exact h full []
  intro l
  induction l with
  | nil => intro seen b hb; cases hb
  | cons x rest ih =>
    intro seen b hb
    by_cases hsk : ratingSkips (some m) x = true
    · rw [filterDedupGo, if_pos hsk] at hb
      exact ih seen b hb
    · rw [filterDedupGo, if_neg hsk] at hb
      have hx : ∃ r, x.rating = some r ∧ m ≤ r := by
        cases hr : x.rating with
        | none => simp [ratingSkips, ratingTruthy, hm, hr] at hsk
        | some r =>
          refine ⟨r, rfl, ?_⟩
          simp [ratingSkips, ratingTruthy, hm, hr] at hsk
          exact hsk
      by_cases hseen : x.asin ∈ seen
      · simp only [if_pos hseen] at hb
        exact ih seen b hb
      · simp only [if_neg hseen] at hb
        rcases List.mem_cons.mp hb with hb | hb
        · subst hb
          obtain ⟨r, hr, hmr⟩ := hx
          exact ⟨r, by simp [init_stats, hr], hmr⟩
        · exact ih (x.asin :: seen) b hb

theorem min_rating_nonzero_filters_witness :
    ∃ r, (init_stats 0 ({ asin := "R5", provider := "Audible", title := "T",
                          authors := [], rating := some 5 } : Book)).rating = some r ∧
      (4 : ℚ) ≤ r :=
  min_rating_nonzero_filters 0 4 (by decide)
    [{ asin := "R5", provider := "Audible", title := "T", authors := [], rating := some 5 }]
    (init_stats 0 ({ asin := "R5", provider := "Audible", title := "T",
                     authors := [], rating := some 5 } : Book)) (by decide)

/-! ## Shared pipeline lemmas (cache writes, persist loop) -/

theorem getCache_setCache_self (c : List (String × CVal)) (k : String) (v : CVal) :
    getCache (setCache c k v) k = some v := by
  induction c with
  | nil => simp [setCache, getCache]
  | cons kv rest ih =>
    cases kv with
    | mk k0 v0 =>
      by_cases h : k0 = k
      · simp [setCache, h, getCache]
      · simp [setCache, getCache, h, ih]

theorem getCache_setCache_ne (c : List (String × CVal)) {k k' : String} (v : CVal)
    (h : k' ≠ k) : getCache (setCache c k v) k' = getCache c k' := by
  induction c with
  | nil => simp [setCache, getCache, Ne.symm h]
  | cons kv rest ih =>
    cases kv with
    | mk k0 v0 =>
      by_cases h0 : k0 = k
      · subst h0
        simp [setCache, getCache, Ne.symm h]
      · by_cases h0' : k0 = k' <;> simp [setCache, getCache, h0, h0', h, ih]

theorem persistBooks_no_fail {env : Env} (h : env.upsertFails = false) :
    ∀ (l : List Book) (st : SState),
      ∃ c, persistBooks env l st =
        (none, { cache := c, ustore := st.ustore,
                 upsertLog := st.upsertLog ++ l.map Book.asin,
                 providerCalls := st.providerCalls }) := by
  intro l
  induction l with
  | nil => intro st; exact ⟨st.cache, by simp [persistBooks]⟩
  | cons b rest ih =>
    intro st
    obtain ⟨c, hc⟩ := ih
      { st with upsertLog := st.upsertLog ++ [b.asin]
                cache := setCache st.cache ("book_v7:" ++ b.asin) (.book b) }
    refine ⟨c, ?_⟩
    rw [persistBooks, if_neg (by simp [h]), hc]
    simp

/-- The asin is untouched by `_init_stats`. -/
theorem init_stats_asin (now : Nat) (b : Book) : (init_stats now b).asin = b.asin := rfl

/-! ## C8: dedup by id, first seen wins, one durable write each -/

/-- C8: with provider A returning records with ids X, Y and provider B
returning records with ids X (duplicate) and Z, the assembled list cached
under the fingerprint key holds exactly the three distinct ids X, Y, Z in
first-seen order — the duplicate keeps A's record — and the durable store
receives exactly one upsert per id. -/
theorem search_dedup_first_seen (env : Env) (req : SearchReq) (st : SState)
    (bX bY bX' bZ : Book) (x y z : String)
    (hax : bX.asin = x) (hay : bY.asin = y) (hax' : bX'.asin = x) (haz : bZ.asin = z)
    (hxy : x ≠ y) (hxz : x ≠ z) (hyz : y ≠ z)
    (hprov : env.providerResults = [.ok [bX, bY], .ok [bX', bZ]])
    (hmr : req.min_rating = none)
    (hcrit : ¬(req.q = none ∧ req.author = none ∧ req.isbn = none))
    (hmiss : getCache st.cache (reqCacheKey req env.search_limit) = none)
    (hup : env.upsertFails = false) :
    getCache (search_audiobook env req st).2.cache (reqCacheKey req env.search_limit) =
      some (.slist [init_stats env.now bX, init_stats env.now bY, init_stats env.now bZ]) ∧
    (search_audiobook env req st).2.upsertLog = st.upsertLog ++ [x, y, z] := by
  have hfd : filterDedup env.now req.min_rating [bX, bY, bX', bZ] =
      [init_stats env.now bX, init_stats env.now bY, init_stats env.now bZ] := by
    rw [hmr]
    simp [filterDedup, filterDedupGo, ratingSkips, ratingTruthy, hax, hay, hax', haz,
      hxy, hxz, hyz, Ne.symm hxy, Ne.symm hxz, Ne.symm hyz]
  obtain ⟨c, hpersist⟩ := persistBooks_no_fail hup
    [init_stats env.now bX, init_stats env.now bY, init_stats env.now bZ]
    { st with providerCalls := st.providerCalls + 2 }
  have hasins : [init_stats env.now bX, init_stats env.now bY,
      init_stats env.now bZ].map Book.asin = [x, y, z] := by
    simp [init_stats_asin, hax, hay, haz]
  rw [hasins] at hpersist
  simp only [search_audiobook, if_neg hcrit, hmiss, hprov, List.map_cons, List.map_nil,
    outcomeBooks, List.foldl_cons, List.foldl_nil, List.nil_append, List.cons_append,
    List.append_nil, List.length_cons, List.length_nil, hfd, hpersist]
  refine ⟨getCache_setCache_self _ _ _, by simp⟩

theorem search_dedup_first_seen_witness :
    (search_audiobook
      { now := 0,
        providerResults :=
          [.ok [{ asin := "X", provider := "A", title := "Dune", authors := [] },
                { asin := "Y", provider := "A", title := "Lore", authors := [] }],
           .ok [{ asin := "X", provider := "B", title := "Dune", authors := [] },
                { asin := "Z", provider := "B", title := "Sand", authors := [] }]] }
      { q := some "dune" } {}).2.upsertLog = ["X", "Y", "Z"] := by
  have h := search_dedup_first_seen
    { now := 0,
      providerResults :=
        [.ok [{ asin := "X", provider := "A", title := "Dune", authors := [] },
              { asin := "Y", provider := "A", title := "Lore", authors := [] }],
         .ok [{ asin := "X", provider := "B", title := "Dune", authors := [] },
              { asin := "Z", provider := "B", title := "Sand", authors := [] }]] }
    { q := some "dune" } {}
    { asin := "X", provider := "A", title := "Dune", authors := [] }
    { asin := "Y", provider := "A", title := "Lore", authors := [] }
    { asin := "X", provider := "B", title := "Dune", authors := [] }
    { asin := "Z", provider := "B", title := "Sand", authors := [] }
    "X" "Y" "Z" rfl rfl rfl rfl (by decide) (by decide) (by decide)
    rfl rfl (by simp) rfl rfl
  simpa using h.2

/-! ## C4: error surfacing after criteria validation -/

/-- C4 counterexample: with a durable-store upsert that raises, a search
passing criteria validation (here `q="x"`, one provider result to persist)
surfaces HTTP 500 to the caller — the blanket `except` re-raises as
`HTTPException(500)`, so store failures are NOT swallowed. -/
theorem search_store_failure_counterexample :
    (search_audiobook
      { now := 0, upsertFails := true,
        providerResults :=
          [.ok [{ asin := "E1", provider := "Audible", title := "T", authors := [] }]] }
      { q := some "x" } {}).1 = .error 500 := rfl

/-- C4 (amended): once criteria validation passes, search returns a
(possibly empty) list whenever persisting to the durable store does not
fail, for ANY provider outcomes — adapter errors are swallowed by
`benchmark_call` and degrade to empty contributions; but a store failure
while persisting assembled records escapes the handler as HTTP 500. -/
theorem search_ok_when_store_reliable (env : Env) (req : SearchReq) (st : SState)
    (hcrit : ¬(req.q = none ∧ req.author = none ∧ req.isbn = none))
    (hup : env.upsertFails = false) :
    ∃ l, (search_audiobook env req st).1 = .ok l := by
  simp only [search_audiobook, if_neg hcrit]
  rcases hc : getCache st.cache (reqCacheKey req env.search_limit) with _ | v
  · simp only [hc]
    obtain ⟨c, hp⟩ := persistBooks_no_fail hup
      (filterDedup env.now req.min_rating
        ((env.providerResults.map outcomeBooks).foldl (fun acc l => acc ++ l) []))
      { st with providerCalls := st.providerCalls + env.providerResults.length }
    rw [hp]
    exact ⟨_, rfl⟩
  · cases v with
    | book b =>
      simp only [hc]
      obtain ⟨c, hp⟩ := persistBooks_no_fail hup
        (filterDedup env.now req.min_rating
          ((env.providerResults.map outcomeBooks).foldl (fun acc l => acc ++ l) []))
        { st with providerCalls := st.providerCalls + env.providerResults.length }
      rw [hp]
      exact ⟨_, rfl⟩
    | slist l =>
      by_cases he : l.isEmpty
      · simp only [hc, he, if_true]
        obtain ⟨c, hp⟩ := persistBooks_no_fail hup
          (filterDedup env.now req.min_rating
            ((env.providerResults.map outcomeBooks).foldl (fun acc l => acc ++ l) []))
          { st with providerCalls := st.providerCalls + env.providerResults.length }
        rw [hp]
        exact ⟨_, rfl⟩
      · simp only [hc, he, if_false]
        exact ⟨_, rfl⟩

theorem search_ok_when_store_reliable_witness :
    ∃ l, (search_audiobook { now := 0, providerResults := [.err] }
      { q := some "x" } {}).1 = .ok l :=
  search_ok_when_store_reliable { now := 0, providerResults := [.err] }
    { q := some "x" } {} (by simp) rfl

/-! ## C3: repeating an identical search against the cache -/

theorem find_unified_by_relation_empty {st : UStore} (h : st.entities = [])
    (p i : String) : find_unified_by_relation st p i = none := by
  simp [find_unified_by_relation, h]

theorem addToGroups_of_lookup_none {k : String} {b : Book} :
    ∀ {acc : List (String × List Book)}, groupLookup k acc = none →
      addToGroups k b acc = acc ++ [(k, [b])] := by
  intro acc
  induction acc with
  | nil => intro _; rfl
  | cons kg rest ih =>
    intro h
    cases kg with
    | mk k0 g =>
      have hk : k0 ≠ k := by
        intro he
        simp [groupLookup, he] at h
      rw [groupLookup, if_neg hk] at h
      simp [addToGroups, hk, ih h]

theorem groupLookup_append_single {k k0 : String} {g0 : List Book}
    {acc : List (String × List Book)} (h : groupLookup k acc = none) :
    groupLookup k (acc ++ [(k0, g0)]) = if k0 = k then some g0 else none := by
  induction acc with
  | nil => rfl
  | cons kg rest ih =>
    cases kg with
    | mk k1 g1 =>
      have hk : k1 ≠ k := by
        intro he
        simp [groupLookup, he] at h
      rw [groupLookup, if_neg hk] at h
      simp [groupLookup, hk, ih h]

theorem groupByKey_foldl_nodup (f : Book → String) :
    ∀ (l : List Book) (acc : List (String × List Book)),
      (∀ b ∈ l, groupLookup (f b) acc = none) → (l.map f).Nodup →
      l.foldl (fun acc b => addToGroups (f b) b acc) acc =
        acc ++ l.map (fun b => (f b, [b])) := by
  intro l
  induction l with
  | nil => intro acc _ _; simp
  | cons x xs ih =>
    intro acc hnone hnd
    simp only [List.foldl_cons]
    rw [addToGroups_of_lookup_none (hnone x (List.mem_cons_self x xs))]
    have hnd' : (xs.map f).Nodup := by
      simp only [List.map_cons, List.nodup_cons] at hnd
      exact hnd.2
    have hfx : ∀ b ∈ xs, f b ≠ f x := by
      intro b hb he
      simp only [List.map_cons, List.nodup_cons] at hnd
      exact hnd.1 (he ▸ List.mem_map_of_mem f hb)
    rw [ih (acc ++ [(f x, [x])])
      (fun b hb => by
        rw [groupLookup_append_single (hnone b (List.mem_cons_of_mem x hb))]
        exact if_neg (fun he => hfx b hb he.symm)) hnd']
    simp

theorem groupByKey_of_nodup (f : Book → String) (l : List Book)
    (hnd : (l.map f).Nodup) :
    groupByKey f l = l.map (fun b => (f b, [b])) := by
  have := groupByKey_foldl_nodup f l [] (fun b _ => rfl) hnd
  simpa [groupByKey] using this

theorem merge_sources_single (b : Book) (m : UnifiedEntity) :
    (merge_sources [b] m).book = b := rfl

theorem createForGroups_singletons (l : List Book) :
    ∀ st : UStore,
      ((createForGroups st (l.map (fun b => (match_key b, [b])))).2).map MergedBook.book
        = l := by
  induction l with
  | nil => intro st; rfl
  | cons b rest ih =>
    intro st
    simp only [List.map_cons, createForGroups]
    simp [ih, merge_sources_single]

theorem unify_trivial (ust : UStore) (l : List Book) (hust : ust.entities = [])
    (hne : l ≠ []) (hnodup : (l.map match_key).Nodup) :
    ((unify_search_results ust [l]).2).map (fun u => transform_to_abs_format u.book) =
      l.map transform_to_abs_format := by
  have hflat : ([l] : List (List Book)).foldl (fun acc l => acc ++ l) [] = l := by simp
  have hisE : l.isEmpty = false := by
    cases l with
    | nil => exact absurd rfl hne
    | cons a t => rfl
  have hunass : l.filter
      (fun b => (find_unified_by_relation ust b.provider b.asin).isNone) = l := by
    apply List.filter_eq_self.mpr
    intro b _
    simp [find_unified_by_relation_empty hust]
  have hres : l.filter
      (fun b => (find_unified_by_relation ust b.provider b.asin).isSome) = [] := by
    apply List.filter_eq_nil_iff.mpr
    intro b _
    simp [find_unified_by_relation_empty hust]
  rw [unify_search_results, hflat, hisE]
  simp only [Bool.false_eq_true, if_false, hunass, hres]
  rw [groupByKey_of_nodup match_key l hnodup]
  have hc := createForGroups_singletons l ust
  simp only [buildUMap, List.foldl_nil, List.map_nil, List.nil_append]
  conv_rhs => rw [← hc, List.map_map]
  rfl

/-- C3 counterexample: the same valid search issued twice in a row (cache
entry live) returns different results: the first response is the unified
view (the two same-isbn records merge into one), while the second response
replays the cached pre-unification list of two records.  Provider calls are
not repeated (the provider-call counter stays at 2), so it is the
byte-identical-result part of the claim that fails. -/
theorem search_repeat_diverges_counterexample :
    (search_audiobook
      { now := 0, providerResults :=
          [.ok [{ asin := "A1", provider := "Audible", title := "Dune",
                  authors := ["F"], isbn := some "1234567890" }],
           .ok [{ asin := "A2", provider := "iTunes", title := "DUNE",
                  authors := ["F"], isbn := some "1234567890" }]] }
      { q := some "dune" } {}).1 =
      .ok [{ id := "A1", asin := "A1", isbn := "A1", title := "Dune", author := "F",
             provider := "Audible", rating := none }] ∧
    (search_audiobook
      { now := 0, providerResults :=
          [.ok [{ asin := "A1", provider := "Audible", title := "Dune",
                  authors := ["F"], isbn := some "1234567890" }],
           .ok [{ asin := "A2", provider := "iTunes", title := "DUNE",
                  authors := ["F"], isbn := some "1234567890" }]] }
      { q := some "dune" }
      (search_audiobook
        { now := 0, providerResults :=
            [.ok [{ asin := "A1", provider := "Audible", title := "Dune",
                    authors := ["F"], isbn := some "1234567890" }],
             .ok [{ asin := "A2", provider := "iTunes", title := "DUNE",
                    authors := ["F"], isbn := some "1234567890" }]] }
        { q := some "dune" } {}).2).1 =
      .ok [{ id := "A1", asin := "A1", isbn := "A1", title := "Dune", author := "F",
             provider := "Audible", rating := none },
           { id := "A2", asin := "A2", isbn := "A2", title := "DUNE", author := "F",
             provider := "iTunes", rating := none }] ∧
    (search_audiobook
      { now := 0, providerResults :=
          [.ok [{ asin := "A1", provider := "Audible", title := "Dune",
                  authors := ["F"], isbn := some "1234567890" }],
           .ok [{ asin := "A2", provider := "iTunes", title := "DUNE",
                  authors := ["F"], isbn := some "1234567890" }]] }
      { q := some "dune" }
      (search_audiobook
        { now := 0, providerResults :=
            [.ok [{ asin := "A1", provider := "Audible", title := "Dune",
                    authors := ["F"], isbn := some "1234567890" }],
             .ok [{ asin := "A2", provider := "iTunes", title := "DUNE",
                    authors := ["F"], isbn := some "1234567890" }]] }
        { q := some "dune" } {}).2).2.providerCalls =
    (search_audiobook
      { now := 0, providerResults :=
          [.ok [{ asin := "A1", provider := "Audible", title := "Dune",
                  authors := ["F"], isbn := some "1234567890" }],
           .ok [{ asin := "A2", provider := "iTunes", title := "DUNE",
                  authors := ["F"], isbn := some "1234567890" }]] }
      { q := some "dune" } {}).2.providerCalls ∧
    ([{ id := "A1", asin := "A1", isbn := "A1", title := "Dune", author := "F",
        provider := "Audible", rating := none }] : List AbsBook) ≠
      [{ id := "A1", asin := "A1", isbn := "A1", title := "Dune", author := "F",
         provider := "Audible", rating := none },
       { id := "A2", asin := "A2", isbn := "A2", title := "DUNE", author := "F",
         provider := "iTunes", rating := none }] :=
  ⟨rfl, rfl, rfl, by decide⟩

/-- C3 (amended): re-issuing the identical search while the cache entry is
live performs zero additional provider calls and replays the cached
pre-unification list; when the first call's assembled records are nonempty,
pairwise non-merging (distinct match keys) and no unified relations exist
yet, the replay is identical to the first response — but when unification
merges records (see the counterexample) the two responses differ, and an
empty cached result is treated as a miss. -/
theorem search_cache_hit_replays (env : Env) (req : SearchReq) (st : SState)
    (hcrit : ¬(req.q = none ∧ req.author = none ∧ req.isbn = none))
    (hup : env.upsertFails = false)
    (hmiss : getCache st.cache (reqCacheKey req env.search_limit) = none)
    (hne : filterDedup env.now req.min_rating
      ((env.providerResults.map outcomeBooks).foldl (fun acc l => acc ++ l) []) ≠ [])
    (hnodup : ((filterDedup env.now req.min_rating
      ((env.providerResults.map outcomeBooks).foldl (fun acc l => acc ++ l) [])).map
        match_key).Nodup)
    (hust : st.ustore.entities = []) :
    (search_audiobook env req (search_audiobook env req st).2).2.providerCalls =
      (search_audiobook env req st).2.providerCalls ∧
    (search_audiobook env req (search_audiobook env req st).2).1 =
      (search_audiobook env req st).1 := by
  set fl := filterDedup env.now req.min_rating
    ((env.providerResults.map outcomeBooks).foldl (fun acc l => acc ++ l) []) with hfl
  obtain ⟨c, hp⟩ := persistBooks_no_fail hup fl
    { st with providerCalls := st.providerCalls + env.providerResults.length }
  have h1 : search_audiobook env req st =
      (.ok ((unify_search_results st.ustore [fl]).2.map
        (fun u => transform_to_abs_format u.book)),
       { cache := setCache c (reqCacheKey req env.search_limit) (.slist fl),
         ustore := (unify_search_results st.ustore [fl]).1,
         upsertLog := st.upsertLog ++ fl.map Book.asin,
         providerCalls := st.providerCalls + env.providerResults.length }) := by
    simp only [search_audiobook, if_neg hcrit, hmiss]
    rw [← hfl, hp]
  have hflE : fl.isEmpty = false := by
    cases hcase : fl with
    | nil => exact absurd hcase hne
    | cons a t => rfl
  have h2 : search_audiobook env req
      ({ cache := setCache c (reqCacheKey req env.search_limit) (.slist fl),
         ustore := (unify_search_results st.ustore [fl]).1,
         upsertLog := st.upsertLog ++ fl.map Book.asin,
         providerCalls := st.providerCalls + env.providerResults.length } : SState) =
      (.ok (fl.map transform_to_abs_format),
       { cache := setCache c (reqCacheKey req env.search_limit) (.slist fl),
         ustore := (unify_search_results st.ustore [fl]).1,
         upsertLog := st.upsertLog ++ fl.map Book.asin,
         providerCalls := st.providerCalls + env.providerResults.length }) := by
    simp only [search_audiobook, if_neg hcrit, getCache_setCache_self, hflE]
    simp
  rw [h1, h2]
  exact ⟨rfl, congrArg Except.ok
    (unify_trivial st.ustore fl hust hne hnodup).symm ▸ rfl⟩

theorem search_cache_hit_replays_witness :
    (search_audiobook
      { now := 0, providerResults :=
          [.ok [{ asin := "W1", provider := "Audible", title := "T", authors := [] }]] }
      { q := some "t" }
      (search_audiobook
        { now := 0, providerResults :=
            [.ok [{ asin := "W1", provider := "Audible", title := "T", authors := [] }]] }
        { q := some "t" } {}).2).2.providerCalls =
      (search_audiobook
        { now := 0, providerResults :=
            [.ok [{ asin := "W1", provider := "Audible", title := "T", authors := [] }]] }
        { q := some "t" } {}).2.providerCalls ∧
    (search_audiobook
      { now := 0, providerResults :=
          [.ok [{ asin := "W1", provider := "Audible", title := "T", authors := [] }]] }
      { q := some "t" }
      (search_audiobook
        { now := 0, providerResults :=
            [.ok [{ asin := "W1", provider := "Audible", title := "T", authors := [] }]] }
        { q := some "t" } {}).2).1 =
      (search_audiobook
        { now := 0, providerResults :=
            [.ok [{ asin := "W1", provider := "Audible", title := "T", authors := [] }]] }
        { q := some "t" } {}).1 :=
  search_cache_hit_replays
    { now := 0, providerResults :=
        [.ok [{ asin := "W1", provider := "Audible", title := "T", authors := [] }]] }
    { q := some "t" } {} (by simp) rfl rfl (by decide) (by decide) rfl

/-! ## C6: the fingerprint key -/

/-- C6 counterexample: a search with query text `"none"` and a search with
no query text at all (both with author `"frank"`, so both valid) produce the
same fingerprint key — `f"q={q}"` renders a missing parameter as `None`,
which lower-cases to the literal string `none`. -/
theorem fingerprint_collision_counterexample :
    searchCacheKey (some "none") (some "frank") none none none "5" =
      searchCacheKey none (some "frank") none none none "5" ∧
    (some "none" : Option String) ≠ none := by
  decide

theorem cleanAlphabet_fixed :
    ∀ c ∈ cleanAlphabet, c.toLower = c ∧ c ≠ ' ' ∧ c ≠ ',' ∧ c ≠ ':' := by
  decide

theorem digits_fixed :
    ∀ c ∈ ("0123456789" : String).data, c.toLower = c ∧ c ≠ ' ' ∧ c ≠ ',' := by
  decide

theorem cleanChars_of_fixed :
    ∀ (l : List Char), (∀ c ∈ l, c.toLower = c ∧ c ≠ ' ' ∧ c ≠ ',') → cleanChars l = l := by
  intro l h
  induction l with
  | nil => rfl
  | cons c rest ih =>
    obtain ⟨h1, h2, h3⟩ := h c (List.mem_cons_self c rest)
    have hstep : cleanChars (c :: rest) = c :: cleanChars rest := by
      simp [cleanChars, h1, h2, h3]
    rw [hstep, ih (fun x hx => h x (List.mem_cons_of_mem c hx))]

theorem cleanChars_append (a b : List Char) :
    cleanChars (a ++ b) = cleanChars a ++ cleanChars b := by
  simp [cleanChars]

theorem cleanChars_pyOpt {o : Option String} (h : CleanOpt o) :
    cleanChars (pyOpt o).data = pydc o := by
  cases o with
  | none => decide
  | some s =>
    obtain ⟨_, hs⟩ := h
    exact cleanChars_of_fixed s.data (fun c hc => by
      obtain ⟨h1, h2, h3, _⟩ := cleanAlphabet_fixed c (hs c hc)
      exact ⟨h1, h2, h3⟩)

theorem cleanChars_digits {s : String} (h : DigitStr s) :
    cleanChars s.data = s.data :=
  cleanChars_of_fixed s.data (fun c hc => digits_fixed c (h c hc))

theorem noColon_pydc {o : Option String} (h : CleanOpt o) : ':' ∉ pydc o := by
  cases o with
  | none => decide
  | some s =>
    intro hmem
    obtain ⟨_, hs⟩ := h
    have := cleanAlphabet_fixed ':' (hs ':' hmem)
    exact this.2.2.2 rfl

theorem pydc_inj {o1 o2 : Option String} (h1 : CleanOpt o1) (h2 : CleanOpt o2)
    (h : pydc o1 = pydc o2) : o1 = o2 := by
  cases o1 with
  | none =>
    cases o2 with
    | none => rfl
    | some s =>
      exact absurd (String.ext h.symm) h2.1
  | some s =>
    cases o2 with
    | none => exact absurd (String.ext h) h1.1
    | some t => rw [String.ext h]

theorem append_colon_inj :
    ∀ {a c b d : List Char}, ':' ∉ a → ':' ∉ c →
      a ++ ':' :: b = c ++ ':' :: d → a = c ∧ b = d := by
  intro a
  induction a with
  | nil =>
    intro c b d _ hc h
    cases c with
    | nil =>
      simp only [List.nil_append] at h
      exact ⟨rfl, by injection h⟩
    | cons x xs =>
      simp only [List.nil_append, List.cons_append] at h
      injection h with h1 _
      exact absurd (h1 ▸ List.mem_cons_self x xs) hc
  | cons y ys ih =>
    intro c b d ha hc h
    cases c with
    | nil =>
      simp only [List.nil_append, List.cons_append] at h
      injection h with h1 _
      exact absurd (h1 ▸ List.mem_cons_self y ys) ha
    | cons x xs =>
      simp only [List.cons_append] at h
      injection h with h1 h2
      obtain ⟨hac, hbd⟩ := ih (fun hm => ha (List.mem_cons_of_mem y hm))
        (fun hm => hc (List.mem_cons_of_mem x hm)) h2
      exact ⟨by rw [h1, hac], hbd⟩

theorem searchCacheKey_data {q a i p r : Option String} {lim : String}
    (hq : CleanOpt q) (ha : CleanOpt a) (hi : CleanOpt i) (hp : CleanOpt p)
    (hr : CleanOpt r) (hl : DigitStr lim) :
    (searchCacheKey q a i p r lim).data =
      ("search_v14:" : String).data ++ (("q=" : String).data ++ (pydc q ++
        ((":auth=" : String).data ++ (pydc a ++ ((":isbn=" : String).data ++ (pydc i ++
          ((":prov=" : String).data ++ (pydc p ++ ((":rate=" : String).data ++ (pydc r ++
            ((":lim=" : String).data ++ lim.data))))))))))) := by
  have hqe : cleanChars ("q=" : String).data = ("q=" : String).data := by decide
  have hae : cleanChars (":auth=" : String).data = (":auth=" : String).data := by decide
  have hie : cleanChars (":isbn=" : String).data = (":isbn=" : String).data := by decide
  have hpe : cleanChars (":prov=" : String).data = (":prov=" : String).data := by decide
  have hre : cleanChars (":rate=" : String).data = (":rate=" : String).data := by decide
  have hle : cleanChars (":lim=" : String).data = (":lim=" : String).data := by decide
  have hmk : ∀ l : List Char, (String.mk l).data = l := fun _ => rfl
  simp only [searchCacheKey, cacheStr, cleanKey, String.data_append, hmk,
    cleanChars_append, hqe, hae, hie, hpe, hre, hle,
    cleanChars_pyOpt hq, cleanChars_pyOpt ha, cleanChars_pyOpt hi, cleanChars_pyOpt hp,
    cleanChars_pyOpt hr, cleanChars_digits hl, List.append_assoc]

/-- C6 (amended): the fingerprint feeds all six distinguishing parameters
and is injective on tuples whose rendered fields are lower-case alphanumeric
and distinct from the literal `"none"` (the limit rendering being decimal
digits); outside that domain the normalization identifies semantically
distinct tuples — a missing parameter renders as `None`, which lower-cases
to `"none"` and collides with the literal query text `"none"` (and space
stripping / comma rewriting can likewise identify distinct values). -/
theorem fingerprint_injective_on_clean
    (q1 a1 i1 p1 r1 : Option String) (l1 : String)
    (q2 a2 i2 p2 r2 : Option String) (l2 : String)
    (hq1 : CleanOpt q1) (ha1 : CleanOpt a1) (hi1 : CleanOpt i1) (hp1 : CleanOpt p1)
    (hr1 : CleanOpt r1) (hl1 : DigitStr l1)
    (hq2 : CleanOpt q2) (ha2 : CleanOpt a2) (hi2 : CleanOpt i2) (hp2 : CleanOpt p2)
    (hr2 : CleanOpt r2) (hl2 : DigitStr l2)
    (h : searchCacheKey q1 a1 i1 p1 r1 l1 = searchCacheKey q2 a2 i2 p2 r2 l2) :
    q1 = q2 ∧ a1 = a2 ∧ i1 = i2 ∧ p1 = p2 ∧ r1 = r2 ∧ l1 = l2 := by
  have hd := congrArg String.data h
  rw [searchCacheKey_data hq1 ha1 hi1 hp1 hr1 hl1,
    searchCacheKey_data hq2 ha2 hi2 hp2 hr2 hl2] at hd
  replace hd := List.append_cancel_left hd
  replace hd := List.append_cancel_left hd
  rw [show ((":auth=" : String).data) = ':' :: ("auth=" : String).data from rfl,
    List.cons_append] at hd
  obtain ⟨hqq, hd⟩ := append_colon_inj (noColon_pydc hq1) (noColon_pydc hq2) hd
  replace hd := List.append_cancel_left hd
  rw [show ((":isbn=" : String).data) = ':' :: ("isbn=" : String).data from rfl,
    List.cons_append] at hd
  obtain ⟨haa, hd⟩ := append_colon_inj (noColon_pydc ha1) (noColon_pydc ha2) hd
  replace hd := List.append_cancel_left hd
  rw [show ((":prov=" : String).data) = ':' :: ("prov=" : String).data from rfl,
    List.cons_append] at hd
  obtain ⟨hii, hd⟩ := append_colon_inj (noColon_pydc hi1) (noColon_pydc hi2) hd
  replace hd := List.append_cancel_left hd
  rw [show ((":rate=" : String).data) = ':' :: ("rate=" : String).data from rfl,
    List.cons_append] at hd
  obtain ⟨hpp, hd⟩ := append_colon_inj (noColon_pydc hp1) (noColon_pydc hp2) hd
  replace hd := List.append_cancel_left hd
  rw [show ((":lim=" : String).data) = ':' :: ("lim=" : String).data from rfl,
    List.cons_append] at hd
  obtain ⟨hrr, hd⟩ := append_colon_inj (noColon_pydc hr1) (noColon_pydc hr2) hd
  replace hd := List.append_cancel_left hd
  exact ⟨pydc_inj hq1 hq2 hqq, pydc_inj ha1 ha2 haa, pydc_inj hi1 hi2 hii,
    pydc_inj hp1 hp2 hpp, pydc_inj hr1 hr2 hrr, String.ext hd⟩

theorem fingerprint_injective_on_clean_witness :
    (some "dune" : Option String) = some "dune" ∧
    (some "herbert" : Option String) = some "herbert" ∧
    (none : Option String) = none ∧ (none : Option String) = none ∧
    (some "4" : Option String) = some "4" ∧ "5" = "5" := by
  have hq : CleanOpt (some "dune") := ⟨by decide, by decide⟩
  have ha : CleanOpt (some "herbert") := ⟨by decide, by decide⟩
  have hr : CleanOpt (some "4") := ⟨by decide, by decide⟩
  have hl : DigitStr "5" := by
    intro c hc
    exact (by decide : ∀ x ∈ ("5" : String).data, x ∈ ("0123456789" : String).data) c hc
  exact fingerprint_injective_on_clean (some "dune") (some "herbert") none none (some "4")
    "5" (some "dune") (some "herbert") none none (some "4") "5"
    hq ha trivial trivial hr hl hq ha trivial trivial hr hl rfl

/-! ## C2: the pair-uniqueness invariant of unification -/

theorem mem_addToGroups {k : String} {b : Book} :
    ∀ {acc : List (String × List Book)} {kg : String × List Book},
      kg ∈ addToGroups k b acc →
      kg ∈ acc ∨ (kg.1 = k ∧ ∃ g0, kg.2 = g0 ++ [b] ∧ ((k, g0) ∈ acc ∨ g0 = [])) := by
  intro acc
  induction acc with
  | nil =>
    intro kg h
    simp only [addToGroups] at h
    rcases List.mem_singleton.mp h with rfl
    exact Or.inr ⟨rfl, [], rfl, Or.inr rfl⟩
  | cons kg0 rest ih =>
    intro kg h
    cases kg0 with
    | mk k0 g =>
      by_cases hk : k0 = k
      · subst hk
        rw [addToGroups, if_pos rfl] at h
        rcases List.mem_cons.mp h with rfl | h
        · exact Or.inr ⟨rfl, g, rfl, Or.inl (List.mem_cons_self _ _)⟩
        · exact Or.inl (List.mem_cons_of_mem _ h)
      · rw [addToGroups, if_neg hk] at h
        rcases List.mem_cons.mp h with rfl | h
        · exact Or.inl (List.mem_cons_self _ _)
        · rcases ih h with h' | ⟨h1, g0, h2, h3⟩
          · exact Or.inl (List.mem_cons_of_mem _ h')
          · refine Or.inr ⟨h1, g0, h2, ?_⟩
            rcases h3 with h3 | h3
            · exact Or.inl (List.mem_cons_of_mem _ h3)
            · exact Or.inr h3

theorem groupByKey_mem_facts (f : Book → String) (src : List Book) :
    ∀ (l : List Book) (acc : List (String × List Book)),
      (∀ b ∈ l, b ∈ src) →
      (∀ kg ∈ acc, ∀ b ∈ kg.2, f b = kg.1 ∧ b ∈ src) →
      ∀ kg ∈ l.foldl (fun acc b => addToGroups (f b) b acc) acc, ∀ b ∈ kg.2,
        f b = kg.1 ∧ b ∈ src := by
  intro l
  induction l with
  | nil => intro acc _ hacc; simpa using hacc
  | cons x xs ih =>
    intro acc hsrc hacc
    simp only [List.foldl_cons]
    apply ih
    · intro b hb; exact hsrc b (List.mem_cons_of_mem x hb)
    · intro kg hkg b hb
      rcases mem_addToGroups hkg with h | ⟨h1, g0, h2, h3⟩
      · exact hacc kg h b hb
      · rw [h2] at hb
        rcases List.mem_append.mp hb with hb | hb
        · rcases h3 with h3 | h3
          · have := hacc (f x, g0) h3 b hb
            exact ⟨this.1.trans h1.symm, this.2⟩
          · rw [h3] at hb; cases hb
        · rcases List.mem_singleton.mp hb with rfl
          exact ⟨h1.symm, hsrc b (List.mem_cons_self _ _)⟩

theorem groupLookup_eq_none_iff {k : String} :
    ∀ {acc : List (String × List Book)},
      groupLookup k acc = none ↔ ∀ g, (k, g) ∉ acc := by
  intro acc
  induction acc with
  | nil => simp [groupLookup]
  | cons kg0 rest ih =>
    cases kg0 with
    | mk k0 g0 =>
      by_cases hk : k0 = k
      · subst hk
        rw [groupLookup, if_pos rfl]
        constructor
        · intro h; cases h
        · intro h
          exact absurd (List.mem_cons_self (k0, g0) rest) (h g0)
      · simp only [groupLookup, if_neg hk, ih]
        constructor
        · intro h g hg
          rcases List.mem_cons.mp hg with he | hg'
          · exact hk (by injection he with h1 _; exact h1.symm)
          · exact h g hg'
        · intro h g hg
          exact h g (List.mem_cons_of_mem _ hg)

theorem addToGroups_keys_of_some {k : String} {b : Book} :
    ∀ {acc : List (String × List Book)}, (groupLookup k acc).isSome →
      (addToGroups k b acc).map Prod.fst = acc.map Prod.fst := by
  intro acc
  induction acc with
  | nil => intro h; simp [groupLookup] at h
  | cons kg0 rest ih =>
    intro h
    cases kg0 with
    | mk k0 g0 =>
      by_cases hk : k0 = k
      · subst hk
        simp [addToGroups]
      · rw [groupLookup, if_neg hk] at h
        simp [addToGroups, hk, ih h]

theorem groupByKey_keys_nodup (f : Book → String) :
    ∀ (l : List Book) (acc : List (String × List Book)),
      (acc.map Prod.fst).Nodup →
      ((l.foldl (fun acc b => addToGroups (f b) b acc) acc).map Prod.fst).Nodup := by
  intro l
  induction l with
  | nil => intro acc h; simpa using h
  | cons x xs ih =>
    intro acc hacc
    simp only [List.foldl_cons]
    apply ih
    by_cases hs : (groupLookup (f x) acc).isSome
    · rw [addToGroups_keys_of_some hs]
      exact hacc
    · have hnone : groupLookup (f x) acc = none := by
        cases hlk : groupLookup (f x) acc with
        | none => rfl
        | some g => rw [hlk] at hs; simp at hs
      rw [addToGroups_of_lookup_none hnone]
      rw [List.map_append]
      apply List.Nodup.append hacc (by simp)
      intro a ha hb
      simp only [List.map_cons, List.map_nil, List.mem_singleton] at hb
      subst hb
      rcases List.mem_map.mp ha with ⟨kg, hkg, he⟩
      cases kg with
      | mk kk gg =>
        cases he
        exact (groupLookup_eq_none_iff.mp hnone gg) hkg

theorem groupLookup_mem {k : String} {g : List Book} :
    ∀ {acc : List (String × List Book)}, groupLookup k acc = some g → (k, g) ∈ acc := by
  intro acc
  induction acc with
  | nil => intro h; cases h
  | cons kg0 rest ih =>
    intro h
    cases kg0 with
    | mk k0 g0 =>
      by_cases hk : k0 = k
      · subst hk
        rw [groupLookup, if_pos rfl] at h
        injection h with h
        subst h
        exact List.mem_cons_self _ _
      · rw [groupLookup, if_neg hk] at h
        exact List.mem_cons_of_mem _ (ih h)

theorem createForGroups_entities :
    ∀ (gs : List (String × List Book)) (st : UStore),
      (createForGroups st gs).1.entities = st.entities ++ mkNew st.nextId gs := by
  intro gs
  induction gs with
  | nil => intro st; simp [createForGroups, mkNew]
  | cons kg rest ih =>
    intro st
    cases kg with
    | mk k g =>
      cases g with
      | nil => simpa [createForGroups, mkNew] using ih st
      | cons primary tl =>
        simp only [createForGroups, create_unified_book]
        rw [ih]
        simp [mkNew, List.append_assoc]

theorem mem_mkNew :
    ∀ {n : Nat} {gs : List (String × List Book)} {e : UnifiedEntity}, e ∈ mkNew n gs →
      ∃ kg ∈ gs, kg.2 ≠ [] ∧ e.relations = kg.2.map (fun b => (b.provider, b.asin)) := by
  intro n gs
  induction gs generalizing n with
  | nil => intro e h; cases h
  | cons kg rest ih =>
    intro e h
    cases kg with
    | mk k g =>
      cases g with
      | nil =>
        simp only [mkNew] at h
        obtain ⟨kg', hmem, hne, hrel⟩ := ih h
        exact ⟨kg', List.mem_cons_of_mem _ hmem, hne, hrel⟩
      | cons primary tl =>
        simp only [mkNew] at h
        rcases List.mem_cons.mp h with rfl | h
        · exact ⟨(k, primary :: tl), List.mem_cons_self _ _, by simp, rfl⟩
        · obtain ⟨kg', hmem, hne, hrel⟩ := ih h
          exact ⟨kg', List.mem_cons_of_mem _ hmem, hne, hrel⟩

theorem mkNew_covers :
    ∀ {n : Nat} {gs : List (String × List Book)} {k : String} {g : List Book},
      (k, g) ∈ gs → g ≠ [] →
      ∃ e ∈ mkNew n gs, e.relations = g.map (fun b => (b.provider, b.asin)) := by
  intro n gs
  induction gs generalizing n with
  | nil => intro k g h _; cases h
  | cons kg rest ih =>
    intro k g hmem hne
    cases kg with
    | mk k0 g0 =>
      rcases List.mem_cons.mp hmem with he | hmem'
      · injection he with he1 he2
        subst he1
        subst he2
        cases g with
        | nil => exact absurd rfl hne
        | cons p tl =>
          simp only [mkNew]
          exact ⟨_, List.mem_cons_self _ _, rfl⟩
      · cases g0 with
        | nil =>
          simp only [mkNew]
          exact ih hmem' hne
        | cons p0 tl0 =>
          simp only [mkNew]
          obtain ⟨e, he, hrel⟩ := ih hmem' hne
          exact ⟨e, List.mem_cons_of_mem _ he, hrel⟩

theorem pairwise_mkNew :
    ∀ {gs : List (String × List Book)} (n : Nat),
      gs.Pairwise (fun kg1 kg2 => ∀ pr : String × String,
        (∃ b ∈ kg1.2, (b.provider, b.asin) = pr) →
        ¬∃ b ∈ kg2.2, (b.provider, b.asin) = pr) →
      (mkNew n gs).Pairwise (fun e1 e2 => ∀ pr, pr ∈ e1.relations → pr ∉ e2.relations) := by
  intro gs
  induction gs with
  | nil => intro n _; exact List.Pairwise.nil
  | cons kg rest ih =>
    intro n h
    rcases List.pairwise_cons.mp h with ⟨hhead, htail⟩
    cases kg with
    | mk k g =>
      cases g with
      | nil => exact ih n htail
      | cons p tl =>
        simp only [mkNew]
        apply List.pairwise_cons.mpr
        refine ⟨?_, ih (n + 1) htail⟩
        intro e2 he2 pr hpr hpr2
        obtain ⟨kg2, hmem2, _, hrel2⟩ := mem_mkNew he2
        rw [hrel2] at hpr2
        obtain ⟨b2, hb2, hb2e⟩ := List.mem_map.mp hpr2
        obtain ⟨b1, hb1, hb1e⟩ := List.mem_map.mp hpr
        exact hhead kg2 hmem2 pr ⟨b1, hb1, hb1e⟩ ⟨b2, hb2, hb2e⟩

theorem find?_append_some {α : Type} {p : α → Bool} {l1 l2 : List α} {x : α}
    (h : l1.find? p = some x) : (l1 ++ l2).find? p = some x := by
  induction l1 with
  | nil => cases h
  | cons a rest ih =>
    cases hp : p a with
    | true =>
      rw [List.find?_cons_of_pos rest hp] at h
      rw [List.cons_append, List.find?_cons_of_pos (rest ++ l2) hp]
      exact h
    | false =>
      have hneg : ¬(p a = true) := by simp [hp]
      rw [List.find?_cons_of_neg rest hneg] at h
      rw [List.cons_append, List.find?_cons_of_neg (rest ++ l2) hneg]
      exact ih h

theorem find?_isSome_of_mem {α : Type} {p : α → Bool} {l : List α} {x : α}
    (hx : x ∈ l) (hp : p x = true) : (l.find? p).isSome := by
  induction l with
  | nil => cases hx
  | cons a rest ih =>
    cases hpa : p a with
    | true => rw [List.find?_cons_of_pos rest hpa]; rfl
    | false =>
      rw [List.find?_cons_of_neg rest (by simp [hpa])]
      rcases List.mem_cons.mp hx with rfl | hx'
      · rw [hp] at hpa; cases hpa
      · exact ih hx'

/-- C2: whenever the store satisfies the pair-uniqueness invariant and the
candidate list respects the data model (candidates sharing a
`{provider, provider_id}` pair are the same record), unification preserves
the invariant — every pair remains a relation of at most one Unified Entity
— and re-running unification on the same candidate set leaves the store
unchanged: every pair is now recorded, so the existing-relation lookup
attaches each candidate to its entity instead of creating a new one. -/
theorem unify_pair_unique (st : UStore) (results_list : List (List Book))
    (hid : PairsIdentify (results_list.foldl (fun acc l => acc ++ l) []))
    (hpu : PairUnique st) :
    PairUnique (unify_search_results st results_list).1 ∧
    (unify_search_results (unify_search_results st results_list).1 results_list).1 =
      (unify_search_results st results_list).1 := by
  by_cases hfe : (results_list.foldl (fun acc l => acc ++ l) []).isEmpty = true
  · have h1 : unify_search_results st results_list = (st, []) := by
      simp only [unify_search_results, hfe, if_true]
    rw [h1]
    exact ⟨hpu, by rw [h1]⟩
  · have hfeF : (results_list.foldl (fun acc l => acc ++ l) []).isEmpty = false := by
      cases hc : (results_list.foldl (fun acc l => acc ++ l) []).isEmpty with
      | true => exact absurd hc hfe
      | false => rfl
    have hu1 : ∀ s : UStore, (unify_search_results s results_list).1 =
        (createForGroups s (groupByKey match_key
          ((results_list.foldl (fun acc l => acc ++ l) []).filter
            (fun b => (find_unified_by_relation s b.provider b.asin).isNone)))).1 := by
      intro s
      simp only [unify_search_results, hfeF, Bool.false_eq_true, if_false]
    have hmem := groupByKey_mem_facts match_key
      ((results_list.foldl (fun acc l => acc ++ l) []).filter
        (fun b => (find_unified_by_relation st b.provider b.asin).isNone))
      ((results_list.foldl (fun acc l => acc ++ l) []).filter
        (fun b => (find_unified_by_relation st b.provider b.asin).isNone))
      [] (fun b hb => hb) (by simp)
    have hent : (unify_search_results st results_list).1.entities =
        st.entities ++ mkNew st.nextId (groupByKey match_key
          ((results_list.foldl (fun acc l => acc ++ l) []).filter
            (fun b => (find_unified_by_relation st b.provider b.asin).isNone))) := by
      rw [hu1 st, createForGroups_entities]
    constructor
    · rw [PairUnique, hent]
      apply List.pairwise_append.mpr
      refine ⟨hpu, ?_, ?_⟩
      · apply pairwise_mkNew
        have hkeys := groupByKey_keys_nodup match_key
          ((results_list.foldl (fun acc l => acc ++ l) []).filter
            (fun b => (find_unified_by_relation st b.provider b.asin).isNone)) [] (by simp)
        have hkp := List.pairwise_map.mp hkeys
        apply hkp.imp_of_mem
        intro kg1 kg2 hin1 hin2 hne pr h1 h2
        obtain ⟨b1, hb1, he1⟩ := h1
        obtain ⟨b2, hb2, he2⟩ := h2
        obtain ⟨hk1, hm1⟩ := hmem kg1 hin1 b1 hb1
        obtain ⟨hk2, hm2⟩ := hmem kg2 hin2 b2 hb2
        have hf1 : b1 ∈ results_list.foldl (fun acc l => acc ++ l) [] :=
          List.mem_of_mem_filter hm1
        have hf2 : b2 ∈ results_list.foldl (fun acc l => acc ++ l) [] :=
          List.mem_of_mem_filter hm2
        have heq : b1 = b2 := hid b1 hf1 b2 hf2 (he1.trans he2.symm)
        exact hne (hk1.symm.trans ((congrArg match_key heq).trans hk2))
      · intro e1 he1 e2 he2 pr hpr1 hpr2
        obtain ⟨kg2, hkg2, _, hrel2⟩ := mem_mkNew he2
        rw [hrel2] at hpr2
        obtain ⟨b2, hb2, hb2e⟩ := List.mem_map.mp hpr2
        have hm2 := (hmem kg2 hkg2 b2 hb2).2
        have hnone : find_unified_by_relation st b2.provider b2.asin = none := by
          have := (List.mem_filter.mp hm2).2
          simpa [Option.isNone_iff_eq_none] using this
        have hall := List.find?_eq_none.mp hnone e1 he1
        apply hall
        rw [← hb2e] at hpr1
        simpa using hpr1
    · have hsome : ∀ b ∈ results_list.foldl (fun acc l => acc ++ l) [],
          (find_unified_by_relation (unify_search_results st results_list).1
            b.provider b.asin).isSome = true := by
        intro b hb
        by_cases hres : (find_unified_by_relation st b.provider b.asin).isSome = true
        · obtain ⟨e, he⟩ := Option.isSome_iff_exists.mp hres
          have : find_unified_by_relation (unify_search_results st results_list).1
              b.provider b.asin = some e := by
            rw [find_unified_by_relation, hent]
            exact find?_append_some he
          rw [this]
          rfl
        · have hisn : (find_unified_by_relation st b.provider b.asin).isNone = true := by
            cases hc : find_unified_by_relation st b.provider b.asin with
            | none => rfl
            | some e => rw [hc] at hres; simp at hres
          have hm : b ∈ (results_list.foldl (fun acc l => acc ++ l) []).filter
              (fun b => (find_unified_by_relation st b.provider b.asin).isNone) :=
            List.mem_filter.mpr ⟨hb, hisn⟩
          obtain ⟨g, hg, hbg⟩ := mem_group_groupByKey match_key hm
          have hkg := groupLookup_mem hg
          have hgne : g ≠ [] := by
            intro h
            rw [h] at hbg
            cases hbg
          obtain ⟨e, he, hrel⟩ := mkNew_covers (n := st.nextId) hkg hgne
          rw [find_unified_by_relation, hent]
          apply find?_isSome_of_mem (List.mem_append_right _ he)
          rw [hrel]
          simp only [decide_eq_true_eq]
          exact List.mem_map.mpr ⟨b, hbg, rfl⟩
      have hfilter2 : (results_list.foldl (fun acc l => acc ++ l) []).filter
          (fun b => (find_unified_by_relation (unify_search_results st results_list).1
            b.provider b.asin).isNone) = [] := by
        apply List.filter_eq_nil_iff.mpr
        intro b hb
        have := hsome b hb
        simp [Option.isNone, Option.isSome] at this ⊢
        cases hc : find_unified_by_relation (unify_search_results st results_list).1
            b.provider b.asin with
        | none => rw [hc] at this; simp at this
        | some e => simp
      rw [hu1 (unify_search_results st results_list).1, hfilter2]
      rfl

theorem unify_pair_unique_witness :
    PairUnique (unify_search_results { entities := [], nextId := 0 }
      [[{ asin := "A1", provider := "Audible", title := "Dune", authors := ["F"] }],
       [{ asin := "it9", provider := "iTunes", title := "Dune", authors := ["F"] }]]).1 ∧
    (unify_search_results
      (unify_search_results { entities := [], nextId := 0 }
        [[{ asin := "A1", provider := "Audible", title := "Dune", authors := ["F"] }],
         [{ asin := "it9", provider := "iTunes", title := "Dune", authors := ["F"] }]]).1
      [[{ asin := "A1", provider := "Audible", title := "Dune", authors := ["F"] }],
       [{ asin := "it9", provider := "iTunes", title := "Dune", authors := ["F"] }]]).1 =
    (unify_search_results { entities := [], nextId := 0 }
      [[{ asin := "A1", provider := "Audible", title := "Dune", authors := ["F"] }],
       [{ asin := "it9", provider := "iTunes", title := "Dune", authors := ["F"] }]]).1 := by
  apply unify_pair_unique
  · intro b1 h1 b2 h2 hp
    exact (by decide : ∀ x ∈ ([[{ asin := "A1", provider := "Audible", title := "Dune", authors := ["F"] }], [{ asin := "it9", provider := "iTunes", title := "Dune", authors := ["F"] }]] : List (List Book)).foldl (fun acc l => acc ++ l) [], ∀ y ∈ ([[{ asin := "A1", provider := "Audible", title := "Dune", authors := ["F"] }], [{ asin := "it9", provider := "iTunes", title := "Dune", authors := ["F"] }]] : List (List Book)).foldl (fun acc l => acc ++ l) [], pairOf x = pairOf y → x = y) b1 h1 b2 h2 hp
  · exact List.Pairwise.nil

end Proxy
